import Mathlib

/-! Formal model of the Market-Demand-Analysis repository: the aggregation
pipeline of src/preprocess.js (row normalization, state/category/crop
aggregation, snapshot finalization) and the query engine of src/server.js
(district projection, city listing, full city index).  Numeric quantities are
modelled as rationals; JS `Map`s are modelled as insertion-ordered association
lists. -/

namespace MarketDemand

/-! ### Association-list helpers (model of JS `Map` operations) -/

/-- Lookup in an insertion-ordered association list (JS `Map.get`). -/
def lookupA {V : Type} (k : String) : List (String × V) → Option V
  | [] => none
  | (k', v) :: t => if k' = k then some v else lookupA k t

/-- Update-or-insert (JS `if (!m.has(k)) m.set(k, d); f(m.get(k))` pattern):
the first entry with key `k` has `f` applied to its value in place; if no entry
has key `k`, the entry `(k, f d)` is appended at the end, matching JS `Map`
insertion order. -/
def upsertA {V : Type} (k : String) (d : V) (f : V → V) : List (String × V) → List (String × V)
  | [] => [(k, f d)]
  | (k', v) :: t => if k' = k then (k', f v) :: t else (k', v) :: upsertA k d f t

/-- Keys of an association list, in order. -/
def keysA {V : Type} (m : List (String × V)) : List String := m.map Prod.fst

/-! ### Record normalization (src/preprocess.js, processRow lines 154-199) -/

/-- JS `String.prototype.trim` (strip whitespace at both ends), written
structurally over the character list so that it evaluates by reduction. -/
def trimStr (s : String) : String :=
  ⟨((s.data.dropWhile Char.isWhitespace).reverse.dropWhile Char.isWhitespace).reverse⟩

/-- JS `String.prototype.toLowerCase`, written structurally over the
character list (ASCII case mapping, which covers every string this dataset
compares). -/
def toLowerStr (s : String) : String := ⟨s.data.map Char.toLower⟩

/-- JS `a || b` on an optional string field: a present, non-empty string is
truthy and is selected; an absent field or empty string falls through to `b`. -/
def jsOr (a : Option String) (b : String) : String :=
  match a with
  | some s => if s = "" then b else s
  | none => b

/-- A raw CSV row.  Optional string fields model the JS row object's possibly
absent columns.  The quantity columns hold the `parseFloat` result of a
present, non-empty string (an unparseable/NaN string is modelled as its
`parseFloat(s) || 0` value, i.e. 0); `none` models an absent or empty column.
`cropFile` is the `cropNameFromFile` argument that processRow receives for the
file the row came from. -/
structure Row where
  state : Option String
  stateName : Option String
  category : Option String
  group : Option String
  district : Option String
  districtName : Option String
  crop_name : Option String
  variety : Option String
  scientific_name : Option String
  scientificNameCap : Option String
  suitability : Option String
  suitabilityCap : Option String
  demand_quantity : Option ℚ
  arrivalsTonnes : Option ℚ
  arrivals : Option ℚ
  cropFile : String
deriving DecidableEq

/-- `(row.state || row['State Name'] || '').trim()` -/
def rowState (r : Row) : String := trimStr (jsOr r.state (jsOr r.stateName ""))

/-- `(row.category || row.Group || '').trim()` -/
def rowCategory (r : Row) : String := trimStr (jsOr r.category (jsOr r.group ""))

/-- `(row.district || row['District Name'] || '').trim()` -/
def rowDistrict (r : Row) : String := trimStr (jsOr r.district (jsOr r.districtName ""))

/-- `cropNameFromFile || (row.crop_name || row.Variety || '').trim()` -/
def rowCropName (r : Row) : String :=
  if r.cropFile = "" then trimStr (jsOr r.crop_name (jsOr r.variety "")) else r.cropFile

/-- `(row.scientific_name || row['Scientific Name'] || '').trim()` -/
def rowScientificName (r : Row) : String :=
  trimStr (jsOr r.scientific_name (jsOr r.scientificNameCap ""))

/-- `parseFloat(row.demand_quantity || row['Arrivals (Tonnes)'] || row.Arrivals || '0') || 0` -/
def rowQty (r : Row) : ℚ :=
  (r.demand_quantity.orElse fun _ => (r.arrivalsTonnes.orElse fun _ => r.arrivals)).getD 0

/-- `(row.suitability || row.Suitability || 'Medium').trim()` -/
def rowSuitability (r : Row) : String :=
  trimStr (jsOr r.suitability (jsOr r.suitabilityCap "Medium"))

/-- The fixed allowed category set (src/preprocess.js line 12). -/
def VALID_CATEGORIES : List String :=
  ["Vegetables", "Fruits", "Spices", "Cereals", "Pulses", "Oil Seeds",
   "Oils and Fats", "Fibre Crops", "Forest Products", "Flowers", "Dry Fruits",
   "Beverages", "Live Stock", "Drug and Narcotics", "Other"]

/-- Prefix test on character lists. -/
def isPrefixChars : List Char → List Char → Bool
  | [], _ => true
  | _ :: _, [] => false
  | a :: as, b :: bs => a == b && isPrefixChars as bs

/-- Substring test on character lists. -/
def containsChars (pat : List Char) : List Char → Bool
  | [] => pat.isEmpty
  | c :: t => isPrefixChars pat (c :: t) || containsChars pat t

/-- Code-point comparison of character lists (models the JS default string
sort order, which compares code units). -/
def charListLe : List Char → List Char → Bool
  | [], _ => true
  | _ :: _, [] => false
  | a :: as, b :: bs =>
      if a.toNat < b.toNat then true
      else if b.toNat < a.toNat then false
      else charListLe as bs

/-- Code-point string order used for the sorted outputs. -/
def strLe (a b : String) : Bool := charListLe a.data b.data

/-- JS `String.prototype.includes` (substring test). -/
def strContains (s pat : String) : Bool := containsChars pat.data s.data

/-- src/preprocess.js `mapCategoryToValid` (lines 20-103).  The `cropName`
argument is computed but unused by the source, and is kept for fidelity. -/
def mapCategoryToValid (csvGroup : String) (_cropName : String) : Option String :=
  if csvGroup = "" then none
  else
    let normalizedGroup := trimStr csvGroup
    match VALID_CATEGORIES.find? (fun cat => toLowerStr normalizedGroup = toLowerStr cat) with
    | some directMatch => some directMatch
    | none =>
      let g := toLowerStr normalizedGroup
      if g = "spices" then some "Spices"
      else if g = "cereals" then some "Cereals"
      else if g = "pulses" then some "Pulses"
      else if g = "oil seeds" ∨ g = "oilseeds" then some "Oil Seeds"
      else if g = "oils and fats" ∨ g = "oil and fats" then some "Oils and Fats"
      else if g = "fibre crops" ∨ g = "fiber crops" then some "Fibre Crops"
      else if g = "forest products" then some "Forest Products"
      else if g = "flowers" then some "Flowers"
      else if g = "dry fruits" then some "Dry Fruits"
      else if g = "beverages" then some "Beverages"
      else if strContains g "live stock" ∨ strContains g "livestock" then some "Live Stock"
      else if g = "drug and narcotics" ∨ g = "drug & narcotics" then some "Drug and Narcotics"
      else if g = "other" then some "Other"
      else none

/-- Category resolution in processRow (lines 184-194): case-insensitive direct
match against `VALID_CATEGORIES` first, then the `mapCategoryToValid`
fallback. -/
def categoryResolve (category cropName : String) : Option String :=
  match VALID_CATEGORIES.find? (fun cat => toLowerStr cat = trimStr (toLowerStr category)) with
  | some directMatch => some directMatch
  | none => mapCategoryToValid category cropName

/-- The canonical record a row normalizes to when it is not rejected. -/
structure Rec where
  state : String
  category : String
  district : String
  cropName : String
  scientificName : String
  suitability : String
  qty : ℚ
deriving DecidableEq

/-- The validation portion of processRow (lines 154-199): alias selection,
rejection of rows missing state/category/cropName, rejection of non-positive
quantity, and category normalization.  `none` is a silently rejected row. -/
def normalize (r : Row) : Option Rec :=
  let state := rowState r
  let category := rowCategory r
  let cropName := rowCropName r
  let demandQuantity := rowQty r
  if state = "" ∨ category = "" ∨ cropName = "" then none
  else if demandQuantity ≤ 0 then none
  else
    match categoryResolve category cropName with
    | none => none
    | some validCategory =>
        if validCategory ∈ VALID_CATEGORIES then
          some ⟨state, validCategory, rowDistrict r, cropName,
                rowScientificName r, rowSuitability r, demandQuantity⟩
        else none

/-! ### Aggregation (src/preprocess.js, processRow lines 201-271) -/

/-- `categoryId` subobject of a crop: `_id` slug and display name. -/
structure CategoryId where
  slug : String
  name : String
deriving DecidableEq

/-- One regional-suitability fact attached to a crop. -/
structure RegionFact where
  geography : String
  district : String
  state : String
  suitability : String
deriving DecidableEq

/-- An aggregated crop.  `cropId` is modelled as a counter-minted natural
number standing in for the `uuidv4()` call: fresh and unique per creation. -/
structure Crop where
  cropId : ℕ
  cropName : String
  scientificName : String
  categoryId : CategoryId
  demandQuantity : ℚ
  regionalSuitability : List RegionFact
deriving DecidableEq

/-- Crop deduplication key (line 232): `cropName.toLowerCase().trim()`. -/
def cropKeyOf (name : String) : String := trimStr (toLowerStr name)

/-- `validCategory.toLowerCase().replace(/\s+/g, '_')`: lowercase with each
run of spaces collapsed to a single underscore (category names contain only
ordinary spaces, so ' ' is the only whitespace that can occur). -/
def collapseUnderscore : List Char → List Char
  | [] => []
  | [c] => [if c = ' ' then '_' else c]
  | c :: d :: t =>
      if c = ' ' ∧ d = ' ' then collapseUnderscore (d :: t)
      else (if c = ' ' then '_' else c) :: collapseUnderscore (d :: t)

/-- Category slug used for `categoryId._id` (line 242). -/
def slugOf (category : String) : String := ⟨collapseUnderscore (toLowerStr category).data⟩

/-- The RegionFact built from a record (lines 253-258); a blank suitability
defaults to "Medium" at entry creation. -/
def mkFact (rec : Rec) : RegionFact :=
  ⟨"India", rec.district, rec.state,
   if rec.suitability = "" then "Medium" else rec.suitability⟩

/-- A freshly created crop entry (lines 236-247). -/
def freshCrop (id : ℕ) (rec : Rec) : Crop :=
  ⟨id, rec.cropName, rec.scientificName, ⟨slugOf rec.category, rec.category⟩, 0, []⟩

/-- Merging one record into a crop (lines 250-270): push the region fact
unless one with the same (district, suitability) already exists, then add the
quantity. -/
def mergeRec (rec : Rec) (c : Crop) : Crop :=
  let fact := mkFact rec
  let regions :=
    if c.regionalSuitability.any
        (fun s => decide (s.district = rec.district ∧ s.suitability = fact.suitability)) then
      c.regionalSuitability
    else c.regionalSuitability ++ [fact]
  { c with regionalSuitability := regions, demandQuantity := c.demandQuantity + rec.qty }

/-- cropKey → Crop map of one category. -/
abbrev CropsMap := List (String × Crop)

/-- category name → crops map of one state. -/
abbrev CatMap := List (String × CropsMap)

/-- state name → category map (the global `stateDataMap`). -/
abbrev StatesMap := List (String × CatMap)

/-- Mutable aggregation state: the state map plus the id-minting counter. -/
structure Agg where
  states : StatesMap
  nextId : ℕ
deriving DecidableEq

/-- Nested lookup of a crop at (state, category, cropKey). -/
def lookup3 (m : StatesMap) (s c k : String) : Option Crop :=
  ((lookupA s m).bind (lookupA c)).bind (lookupA k)

/-- Nested lookup of a category's crops map at (state, category). -/
def lookup2 (m : StatesMap) (s c : String) : Option CropsMap :=
  (lookupA s m).bind (lookupA c)

/-- Aggregating one accepted record (lines 201-271): locate-or-create state,
category and crop, then merge.  The id counter advances exactly when a new
crop entry is created. -/
def stepRec (agg : Agg) (rec : Rec) : Agg :=
  let k := cropKeyOf rec.cropName
  { states :=
      upsertA rec.state []
        (upsertA rec.category []
          (upsertA k (freshCrop agg.nextId rec) (mergeRec rec))) agg.states,
    nextId :=
      if lookup3 agg.states rec.state rec.category k = none then agg.nextId + 1
      else agg.nextId }

/-- Processing one raw row: a rejected row leaves the aggregation state
unchanged. -/
def step (agg : Agg) (r : Row) : Agg :=
  match normalize r with
  | none => agg
  | some rec => stepRec agg rec

def emptyAgg : Agg := ⟨[], 0⟩

/-- Aggregating a whole input sequence. -/
def aggregate (rows : List Row) : Agg := rows.foldl step emptyAgg

/-- The records that survive normalization, in input order. -/
def acceptedRecs (rows : List Row) : List Rec := rows.filterMap normalize

/-! ### Finalization (src/preprocess.js, finalizeData lines 277-338) -/

/-- State-level summary block. -/
structure Summary where
  totalCategories : ℕ
  totalCrops : ℕ
  totalDemand : ℚ
  unit : String
  lastUpdated : String
deriving DecidableEq

/-- One category of the finalized output. -/
structure CatOut where
  name : String
  count : ℕ
  crops : List Crop
deriving DecidableEq

/-- One state of the finalized output. -/
structure StateOut where
  state : String
  categories : List CatOut
  summary : Summary
deriving DecidableEq

/-- The finalized category entry for a fixed category name (lines 289-322):
an absent category becomes an empty entry with count 0. -/
def finalizeCat (catMap : CatMap) (cname : String) : CatOut :=
  match lookupA cname catMap with
  | none => ⟨cname, 0, []⟩
  | some cropsMap =>
      let crops := cropsMap.map Prod.snd
      ⟨cname, crops.length, crops⟩

/-- The summary accumulation of finalizeData (lines 305-325): totals are
accumulated over the categories present in the map, iterated in the fixed
category order.  `now` models the `new Date().toISOString()` stamp. -/
def finalizeState (now : String) (p : String × CatMap) : StateOut :=
  let sums : ℕ × ℚ :=
    VALID_CATEGORIES.foldl
      (fun acc cname =>
        match lookupA cname p.2 with
        | none => acc
        | some cropsMap =>
            (acc.1 + cropsMap.length,
             acc.2 + ((cropsMap.map Prod.snd).map Crop.demandQuantity).sum))
      (0, 0)
  ⟨p.1, VALID_CATEGORIES.map (finalizeCat p.2),
   ⟨VALID_CATEGORIES.length, sums.1, sums.2, "tons per week", now⟩⟩

/-- finalizeData: every state, with every fixed category present. -/
def finalizeData (agg : Agg) (now : String) : List StateOut :=
  agg.states.map (finalizeState now)

/-- The whole pipeline: normalize + aggregate + finalize. -/
def buildSnapshot (rows : List Row) (now : String) : List StateOut :=
  finalizeData (aggregate rows) now

/-- Sum of `demandQuantity` over every crop of a snapshot. -/
def snapshotDemand (snap : List StateOut) : ℚ :=
  (snap.map fun st =>
    (st.categories.map fun cat => (cat.crops.map Crop.demandQuantity).sum).sum).sum

/-! ### Query engine (src/server.js) -/

/-- Outcome of an HTTP query route: 400, 503, 404 or a 200 payload. -/
inductive Resp (α : Type) where
  | badRequest : Resp α
  | unavailable : Resp α
  | notFound : Resp α
  | ok : α → Resp α
deriving DecidableEq

/-- Per-state summary of a projection or index response (no timestamp). -/
structure SummaryRes where
  totalCategories : ℕ
  totalCrops : ℕ
  totalDemand : ℚ
  unit : String
deriving DecidableEq

/-- One category of a district projection response. -/
structure CatRes where
  name : String
  count : ℕ
  crops : List Crop
deriving DecidableEq

/-- One state of a district projection response. -/
structure StateRes where
  state : String
  categories : List CatRes
  summary : SummaryRes
deriving DecidableEq

/-- Top-level summary of a projection response. -/
structure ProjSummary where
  totalStates : ℕ
  totalCategories : ℕ
  totalCrops : ℕ
  totalDemand : ℚ
  unit : String
deriving DecidableEq

/-- Successful payload of GET /api/demand/city/:cityName. -/
structure ProjOk where
  city : String
  filterState : String
  filterCategory : String
  note : String
  data : List StateRes
  summary : ProjSummary
deriving DecidableEq

/-- The region-fact test of the projection (server.js lines 95-98):
case-insensitive district match and case-insensitive state match. -/
def districtMatch (city st : String) (f : RegionFact) : Bool :=
  decide (toLowerStr f.district = toLowerStr city ∧ toLowerStr f.state = toLowerStr st)

/-- A crop is selected when some region fact matches (lines 94-99). -/
def hasMatch (city st : String) (c : Crop) : Bool :=
  c.regionalSuitability.any (districtMatch city st)

/-- The reduced crop record emitted for a selected crop (lines 103-117):
identical fields, region list replaced by the first matching fact. -/
def reduceCrop (city st : String) (c : Crop) : Crop :=
  { c with regionalSuitability :=
      match c.regionalSuitability.find? (districtMatch city st) with
      | some r => [r]
      | none => [] }

/-- `filter && name.toLowerCase() !== filter.toLowerCase()` skip logic: keep
when the filter is absent, blank (falsy), or matches case-insensitively. -/
def filterOk (filt : Option String) (nm : String) : Bool :=
  match filt with
  | none => true
  | some v => if v = "" then true else decide (toLowerStr nm = toLowerStr v)

/-- One category's projection (lines 94-125): kept only when some crop
matches. -/
def projCat (city stName : String) (cat : CatOut) : Option CatRes :=
  let matching := cat.crops.filter (hasMatch city stName)
  if matching.length > 0 then
    let cityCrops := matching.map (reduceCrop city stName)
    some ⟨cat.name, cityCrops.length, cityCrops⟩
  else none

/-- One state's projection (lines 75-144): kept only when some category is
kept, with its summary recomputed over the kept categories. -/
def projState (city : String) (categoryFilter : Option String) (sd : StateOut) : Option StateRes :=
  let cats := sd.categories.filterMap (fun cat =>
    if filterOk categoryFilter cat.name then projCat city sd.state cat else none)
  if cats.length > 0 then
    some ⟨sd.state, cats,
      ⟨cats.length, (cats.map CatRes.count).sum,
       (cats.map (fun cat => (cat.crops.map Crop.demandQuantity).sum)).sum,
       "tons per week"⟩⟩
  else none

/-- The projection's retained data (lines 75-145). -/
def projData (snap : List StateOut) (city : String) (sf cf : Option String) : List StateRes :=
  snap.filterMap (fun sd => if filterOk sf sd.state then projState city cf sd else none)

/-- Overall response summary (lines 148-163). -/
def projSummary (data : List StateRes) : ProjSummary :=
  ⟨data.length,
   (data.map (fun st => st.summary.totalCategories)).sum,
   (data.map (fun st => st.summary.totalCrops)).sum,
   (data.map (fun st => st.summary.totalDemand)).sum,
   "tons per week"⟩

/-- `req.query.x ? req.query.x.trim() : null`. -/
def normFilter (raw : Option String) : Option String :=
  match raw with
  | none => none
  | some s => if s = "" then none else some (trimStr s)

/-- `filters: {state: stateFilter || 'all', ...}`. -/
def filterEcho (f : Option String) : String :=
  match f with
  | none => "all"
  | some s => if s = "" then "all" else s

/-- GET /api/demand/city/:cityName (server.js lines 44-182).  `d` is the
loaded `demandData`: `none` when never assigned, `some []` when loading
failed or produced an empty snapshot. -/
def cityEndpoint (d : Option (List StateOut)) (rawCity : String)
    (rawState rawCategory : Option String) : Resp ProjOk :=
  let cityName := trimStr rawCity
  let stateFilter := normFilter rawState
  let categoryFilter := normFilter rawCategory
  if cityName = "" then .badRequest
  else if d.getD [] = [] then .unavailable
  else
    let data := projData (d.getD []) cityName stateFilter categoryFilter
    if data = [] then .notFound
    else .ok ⟨cityName, filterEcho stateFilter, filterEcho categoryFilter,
      "demandQuantity represents the total demand for this crop across all districts in the state, not just this city",
      data, projSummary data⟩

/-- Successful payload of GET /api/demand/cities. -/
structure CitiesOk where
  totalCities : ℕ
  cities : List String
deriving DecidableEq

/-- JS `Set.add`: first insertion wins, order preserved. -/
def insertIfAbsent (acc : List String) (x : String) : List String :=
  if x ∈ acc then acc else acc ++ [x]

/-- The distinct elements of a list in first-appearance order (JS `Set`
iteration order). -/
def distinctList (l : List String) : List String := l.foldl insertIfAbsent []

/-- The number of distinct elements (JS `Set.size`). -/
def distinctCount (l : List String) : ℕ := (distinctList l).length

/-- All non-blank district names of the snapshot (server.js lines 197-209). -/
def allDistricts (snap : List StateOut) : List String :=
  distinctList (snap.flatMap fun sd => sd.categories.flatMap fun cat =>
    cat.crops.flatMap fun c => c.regionalSuitability.filterMap fun region =>
      if region.district = "" then none else some region.district)

/-- GET /api/demand/cities (lines 188-224).  JS `Array.sort()` compares
UTF-16 code units; it is modelled with the code-point order on strings. -/
def citiesEndpoint (d : Option (List StateOut)) : Resp CitiesOk :=
  if d.getD [] = [] then .unavailable
  else
    let cities := (allDistricts (d.getD [])).insertionSort (fun a b => strLe a b = true)
    .ok ⟨cities.length, cities⟩

/-- One category bucket of the all-cities index. -/
structure CityCatEntry where
  name : String
  count : ℕ
  totalDemand : ℚ
  crops : List Crop
deriving DecidableEq

/-- One state bucket of the all-cities index. -/
structure CityStateEntry where
  state : String
  categories : List CityCatEntry
  summary : SummaryRes
deriving DecidableEq

/-- City-level summary of the all-cities index. -/
structure CitySummary where
  totalStates : ℕ
  totalCategories : ℕ
  totalCrops : ℕ
  totalDemand : ℚ
  unit : String
deriving DecidableEq

/-- One city of the all-cities index. -/
structure CityEntry where
  city : String
  states : List CityStateEntry
  summary : CitySummary
deriving DecidableEq

/-- Successful payload of GET /api/demand/all-cities. -/
structure CityIndex where
  totalCities : ℕ
  cities : List CityEntry
deriving DecidableEq

/-- city → state → category → crops buckets (the `citiesMap`). -/
abbrev CityBuckets := List (String × List (String × List (String × List Crop)))

/-- Mutation of the first list element satisfying a predicate (JS `find` then
in-place mutation). -/
def modifyFirst (p : Crop → Bool) (f : Crop → Crop) : List Crop → List Crop
  | [] => []
  | c :: t => if p c then f c :: t else c :: modifyFirst p f t

/-- Adding a region to an already-bucketed crop unless one with the same
(district, state) is present (server.js lines 546-553). -/
def addRegionToCrop (region : RegionFact) (c : Crop) : Crop :=
  if c.regionalSuitability.any
      (fun r => decide (r.district = region.district ∧ r.state = region.state)) then c
  else { c with regionalSuitability := c.regionalSuitability ++ [region] }

/-- Inserting one (crop, region) observation into a category bucket
(lines 530-554): only crops with positive demand enter; dedup by cropId. -/
def bucketAddCrop (crop : Crop) (region : RegionFact) (crops : List Crop) : List Crop :=
  if crop.demandQuantity > 0 then
    if crops.any (fun c => decide (c.cropId = crop.cropId)) then
      modifyFirst (fun c => decide (c.cropId = crop.cropId)) (addRegionToCrop region) crops
    else crops ++ [{ crop with regionalSuitability := [region] }]
  else crops

/-- Processing one region fact of one crop (lines 494-555): blank districts
are skipped before any bucket is created. -/
def allStep (cityMap : CityBuckets) (catName : String) (crop : Crop) (region : RegionFact) :
    CityBuckets :=
  if region.district = "" then cityMap
  else
    upsertA region.district []
      (upsertA region.state []
        (upsertA catName [] (bucketAddCrop crop region))) cityMap

/-- The full bucket pass over the snapshot (lines 488-558). -/
def buildCityBuckets (snap : List StateOut) : CityBuckets :=
  snap.foldl (fun m sd =>
    sd.categories.foldl (fun m cat =>
      cat.crops.foldl (fun m crop =>
        crop.regionalSuitability.foldl (fun m region => allStep m cat.name crop region) m) m) m) []

/-- Category conversion (lines 578-597): zero-demand crops re-filtered,
empty categories dropped. -/
def convertCats (catsMap : List (String × List Crop)) : List CityCatEntry :=
  catsMap.filterMap (fun q =>
    let validCrops := q.2.filter (fun c => decide (c.demandQuantity > 0))
    if validCrops.length > 0 then
      some ⟨q.1, validCrops.length, (validCrops.map Crop.demandQuantity).sum, validCrops⟩
    else none)

/-- State conversion (lines 572-620): empty states dropped, summary
recomputed. -/
def convertStates (statesMap : List (String × List (String × List Crop))) :
    List CityStateEntry :=
  statesMap.filterMap (fun p =>
    let cats := convertCats p.2
    if cats.length > 0 then
      some ⟨p.1, cats,
        ⟨cats.length, (cats.map CityCatEntry.count).sum,
         (cats.map CityCatEntry.totalDemand).sum, "tons per week"⟩⟩
    else none)

/-- City conversion (lines 566-650): `totalCategories` counts the distinct
category names over all of the city's states via a JS `Set`. -/
def convertCity (p : String × List (String × List (String × List Crop))) : Option CityEntry :=
  let states := convertStates p.2
  if states.length > 0 then
    some ⟨p.1, states,
      ⟨states.length,
       distinctCount (states.flatMap (fun st => st.categories.map CityCatEntry.name)),
       (states.map (fun st => st.summary.totalCrops)).sum,
       (states.map (fun st => st.summary.totalDemand)).sum,
       "tons per week"⟩⟩
  else none

/-- The all-cities index (lines 483-655): totalCities is the bucket-map size
(counted before empty cities are dropped), and cities are sorted by name
(JS `localeCompare`, modelled as the code-point order). -/
def allCitiesIndex (snap : List StateOut) : CityIndex :=
  let cityMap := buildCityBuckets snap
  let cities := cityMap.filterMap convertCity
  ⟨cityMap.length, cities.insertionSort (fun a b => strLe a.city b.city = true)⟩

/-- GET /api/demand/all-cities (lines 475-663). -/
def allCitiesEndpoint (d : Option (List StateOut)) : Resp CityIndex :=
  if d.getD [] = [] then .unavailable
  else .ok (allCitiesIndex (d.getD []))

/-! ### Derived observers and invariants used by the proofs -/

/-- Sum of a function of the values of an association list. -/
def sumVals {V : Type} (g : V → ℚ) (l : List (String × V)) : ℚ :=
  (l.map (fun p => g p.2)).sum

/-- Demand carried by an optional crop (0 when absent). -/
def demandOpt (o : Option Crop) : ℚ := (o.map Crop.demandQuantity).getD 0

/-- Region facts carried by an optional crop ([] when absent). -/
def regionsOpt (o : Option Crop) : List RegionFact := (o.map Crop.regionalSuitability).getD []

/-- Invariants of one crop's region list relative to its state key: every fact
carries geography "India" and the state's name, and no two facts share a
(district, suitability) pair. -/
def RegionsWF (s : String) (c : Crop) : Prop :=
  (∀ f ∈ c.regionalSuitability, f.geography = "India" ∧ f.state = s) ∧
  c.regionalSuitability.Pairwise
    (fun a b => ¬(a.district = b.district ∧ a.suitability = b.suitability))

/-- Invariants of one category's crops map: distinct keys, each key being the
crop's dedup key, and region well-formedness. -/
def CropsWF (s : String) (km : CropsMap) : Prop :=
  (keysA km).Nodup ∧ ∀ q ∈ km, q.1 = cropKeyOf q.2.cropName ∧ RegionsWF s q.2

/-- Invariants of one state's category map: distinct keys drawn from the fixed
category set. -/
def CatWF (s : String) (cm : CatMap) : Prop :=
  (keysA cm).Nodup ∧ ∀ q ∈ cm, q.1 ∈ VALID_CATEGORIES ∧ CropsWF s q.2

/-- Invariants of the whole aggregation map. -/
def WF (m : StatesMap) : Prop :=
  (keysA m).Nodup ∧ ∀ p ∈ m, CatWF p.1 p.2

/-- Demand conservation at one step, globally. -/
def aggTotal (m : StatesMap) : ℚ := sumVals (sumVals (sumVals Crop.demandQuantity)) m

/-! ### Concrete inputs used for instantiation -/

/-- First row of the spec's §8 scenario. -/
def wRow1 : Row :=
  ⟨some "Karnataka", none, some "Vegetables", none, some "Bangalore", none,
   none, none, none, none, some "High", none, some 100, none, none, "Tomato"⟩

/-- Second row of the spec's §8 scenario. -/
def wRow2 : Row :=
  ⟨some "Karnataka", none, some "Vegetables", none, some "Mysore", none,
   none, none, none, none, some "Medium", none, some 50, none, none, "Tomato"⟩

def wRows : List Row := [wRow1, wRow2]

def wSnap : List StateOut := buildSnapshot wRows "t"

def wState : StateOut := wSnap.getD 0 ⟨"", [], ⟨0, 0, 0, "", ""⟩⟩

def wCat : CatOut := wState.categories.getD 0 ⟨"", 0, []⟩

def wCrop : Crop := wCat.crops.getD 0 ⟨0, "", "", ⟨"", ""⟩, 0, []⟩

/-- A row like `wRow1` but with the crop name in a different casing (the same
dedup key "tomato"). -/
def wRowUp : Row := { wRow1 with cropFile := "TOMATO" }

/-- A row whose first state alias is whitespace-only while the second alias
holds a value. -/
def rowCX : Row := { wRow1 with state := some " ", stateName := some "Karnataka" }

/-- A row with quantity 0. -/
def wRowZero : Row := { wRow1 with demand_quantity := some 0 }

/-- All stored crop names of a snapshot. -/
def snapshotCropNames (snap : List StateOut) : List String :=
  snap.flatMap fun st => st.categories.flatMap fun cat => cat.crops.map Crop.cropName

/-- A literal snapshot shaped exactly like the output of the pipeline on the
scenario rows (the crop's demand written as the literal 150). -/
def wSnapLit : List StateOut :=
  [⟨"Karnataka",
    [⟨"Vegetables", 1,
      [⟨0, "Tomato", "", ⟨"vegetables", "Vegetables"⟩, 150,
        [⟨"India", "Bangalore", "Karnataka", "High"⟩,
         ⟨"India", "Mysore", "Karnataka", "Medium"⟩]⟩]⟩],
    ⟨15, 1, 150, "tons per week", "t"⟩⟩]

def wSres : StateRes := (projData wSnapLit "Bangalore" none none).getD 0 ⟨"", [], ⟨0, 0, 0, ""⟩⟩

def wCres : CatRes := wSres.categories.getD 0 ⟨"", 0, []⟩

def wCityEntry : CityEntry := (allCitiesIndex wSnapLit).cities.getD 0 ⟨"", [], ⟨0, 0, 0, 0, ""⟩⟩

/-! ### Association-list lemmas -/

theorem lookupA_nil {V : Type} (k : String) : lookupA (V := V) k [] = none := rfl

theorem lookupA_upsertA_self {V : Type} (k : String) (d : V) (f : V → V)
    (l : List (String × V)) :
    lookupA k (upsertA k d f l) = some (f ((lookupA k l).getD d)) := by
  induction l with
  | nil => simp [lookupA, upsertA]
  | cons p t ih =>
      obtain ⟨k', v⟩ := p
      by_cases h : k' = k
      · subst h
        simp [lookupA, upsertA]
      · simp [lookupA, upsertA, h, ih]

theorem lookupA_upsertA_ne {V : Type} {k k' : String} (h : k' ≠ k) (d : V) (f : V → V)
    (l : List (String × V)) :
    lookupA k' (upsertA k d f l) = lookupA k' l := by
  have h' : ¬ k = k' := fun he => h he.symm
  induction l with
  | nil =>
      simp only [upsertA, lookupA]
      rw [if_neg h']
  | cons p t ih =>
      obtain ⟨k'', v⟩ := p
      by_cases hk : k'' = k
      · subst hk
        simp [lookupA, upsertA, h']
      · simp only [upsertA]
        rw [if_neg hk]
        simp only [lookupA]
        by_cases hk' : k'' = k'
        · rw [if_pos hk', if_pos hk']
        · rw [if_neg hk', if_neg hk', ih]

theorem mem_upsertA {V : Type} {p : String × V} {k : String} {d : V} {f : V → V}
    {l : List (String × V)} (h : p ∈ upsertA k d f l) :
    p ∈ l ∨ p = (k, f ((lookupA k l).getD d)) := by
  induction l with
  | nil =>
      simp only [upsertA, List.mem_singleton] at h
      right
      simp [h, lookupA]
  | cons q t ih =>
      obtain ⟨k', v⟩ := q
      by_cases hk : k' = k
      · subst hk
        rw [show upsertA k' d f ((k', v) :: t) = (k', f v) :: t from by
          simp [upsertA]] at h
        rcases List.mem_cons.mp h with h1 | h1
        · right
          rw [h1]
          simp [lookupA]
        · exact Or.inl (List.mem_cons_of_mem _ h1)
      · rw [show upsertA k d f ((k', v) :: t) = (k', v) :: upsertA k d f t from by
          simp [upsertA, hk]] at h
        rcases List.mem_cons.mp h with h1 | h1
        · exact Or.inl (h1 ▸ List.mem_cons_self _ _)
        · rcases ih h1 with h2 | h2
          · exact Or.inl (List.mem_cons_of_mem _ h2)
          · right
            rw [h2]
            simp only [lookupA]
            rw [if_neg hk]

theorem mem_of_lookupA {V : Type} {l : List (String × V)} {k : String} {v : V}
    (h : lookupA k l = some v) : (k, v) ∈ l := by
  induction l with
  | nil => simp [lookupA] at h
  | cons p t ih =>
      obtain ⟨k', w⟩ := p
      by_cases hk : k' = k
      · subst hk
        rw [show lookupA k' ((k', w) :: t) = some w from by
          simp [lookupA]] at h
        obtain rfl := Option.some.inj h
        exact List.mem_cons_self _ _
      · rw [show lookupA k ((k', w) :: t) = lookupA k t from by
          simp [lookupA, hk]] at h
        exact List.mem_cons_of_mem _ (ih h)

theorem lookupA_eq_of_mem {V : Type} {l : List (String × V)} (hn : (keysA l).Nodup)
    {k : String} {v : V} (hm : (k, v) ∈ l) : lookupA k l = some v := by
  induction l with
  | nil => simp at hm
  | cons p t ih =>
      obtain ⟨k', w⟩ := p
      simp only [keysA, List.map_cons, List.nodup_cons] at hn
      rcases List.mem_cons.mp hm with h | h
      · cases h
        simp [lookupA]
      · have hmem : k ∈ List.map Prod.fst t := List.mem_map_of_mem Prod.fst h
        have hne : ¬ k' = k := fun he => hn.1 (he ▸ hmem)
        rw [show lookupA k ((k', w) :: t) = lookupA k t from by
          simp [lookupA, hne]]
        exact ih hn.2 h

theorem lookupA_isSome_iff {V : Type} {l : List (String × V)} {k : String} :
    (lookupA k l).isSome = true ↔ k ∈ keysA l := by
  induction l with
  | nil => simp [lookupA, keysA]
  | cons p t ih =>
      obtain ⟨k', v⟩ := p
      by_cases hk : k' = k
      · subst hk
        simp [lookupA, keysA]
      · simp [lookupA, keysA, hk, ih, Ne.symm hk]

theorem keysA_upsertA {V : Type} (k : String) (d : V) (f : V → V) (l : List (String × V)) :
    keysA (upsertA k d f l) = if k ∈ keysA l then keysA l else keysA l ++ [k] := by
  induction l with
  | nil => simp [upsertA, keysA]
  | cons p t ih =>
      obtain ⟨k', v⟩ := p
      by_cases hk : k' = k
      · subst hk
        rw [show upsertA k' d f ((k', v) :: t) = (k', f v) :: t from by
          simp [upsertA]]
        simp [keysA]
      · rw [show upsertA k d f ((k', v) :: t) = (k', v) :: upsertA k d f t from by
          simp [upsertA, hk]]
        have hkk : ¬ k = k' := fun he => hk he.symm
        simp only [keysA, List.map_cons] at ih ⊢
        rw [ih]
        by_cases hm : k ∈ List.map Prod.fst t
        · simp [hm, hkk, List.mem_cons]
        · simp [hm, hkk, List.mem_cons]

theorem nodup_keysA_upsertA {V : Type} {l : List (String × V)} (hn : (keysA l).Nodup)
    (k : String) (d : V) (f : V → V) : (keysA (upsertA k d f l)).Nodup := by
  rw [keysA_upsertA]
  by_cases hm : k ∈ keysA l
  · simpa [hm] using hn
  · simp [hm, List.nodup_append, hn]

theorem sumVals_nil {V : Type} (g : V → ℚ) : sumVals g [] = 0 := rfl

theorem sumVals_upsertA {V : Type} (g : V → ℚ) (k : String) (d : V) (f : V → V)
    (δ : ℚ) (hf : ∀ v, g (f v) = g v + δ) (hd : g d = 0) (l : List (String × V)) :
    sumVals g (upsertA k d f l) = sumVals g l + δ := by
  induction l with
  | nil => simp [upsertA, sumVals, hf, hd]
  | cons p t ih =>
      obtain ⟨k', v⟩ := p
      by_cases hk : k' = k
      · subst hk
        rw [show upsertA k' d f ((k', v) :: t) = (k', f v) :: t from by
          simp [upsertA]]
        simp only [sumVals, List.map_cons, List.sum_cons, hf]
        ring
      · rw [show upsertA k d f ((k', v) :: t) = (k', v) :: upsertA k d f t from by
          simp [upsertA, hk]]
        simp only [sumVals, List.map_cons, List.sum_cons] at ih ⊢
        rw [ih]
        ring

/-! ### Step-level characterization of the aggregation -/

theorem mergeRec_demand (rec : Rec) (c : Crop) :
    (mergeRec rec c).demandQuantity = c.demandQuantity + rec.qty := rfl

theorem mergeRec_cropName (rec : Rec) (c : Crop) :
    (mergeRec rec c).cropName = c.cropName := rfl

/-- The key fact about one aggregation step: the crop stored at a
(state, category, cropKey) triple is merged with the record when the triple is
the record's own, and untouched otherwise. -/
theorem lookup3_stepRec (agg : Agg) (rec : Rec) (s c k : String) :
    lookup3 (stepRec agg rec).states s c k =
      if rec.state = s ∧ rec.category = c ∧ cropKeyOf rec.cropName = k then
        some (mergeRec rec ((lookup3 agg.states s c k).getD (freshCrop agg.nextId rec)))
      else lookup3 agg.states s c k := by
  by_cases hs : rec.state = s
  · by_cases hc : rec.category = c
    · by_cases hk : cropKeyOf rec.cropName = k
      · subst hs
        subst hc
        subst hk
        rw [if_pos ⟨rfl, rfl, rfl⟩]
        simp only [stepRec, lookup3]
        rw [lookupA_upsertA_self]
        simp only [Option.some_bind]
        rw [lookupA_upsertA_self]
        simp only [Option.some_bind]
        rw [lookupA_upsertA_self]
        cases hA : lookupA rec.state agg.states with
        | none => simp [hA, lookupA]
        | some cm =>
            cases hB : lookupA rec.category cm with
            | none => simp [hA, hB, lookupA]
            | some km => simp [hA, hB]
      · rw [if_neg (fun hh => hk hh.2.2)]
        subst hs
        subst hc
        simp only [stepRec, lookup3]
        rw [lookupA_upsertA_self]
        simp only [Option.some_bind]
        rw [lookupA_upsertA_self]
        simp only [Option.some_bind]
        rw [lookupA_upsertA_ne (fun hh => hk hh.symm)]
        cases hA : lookupA rec.state agg.states with
        | none => simp [hA, lookupA]
        | some cm =>
            cases hB : lookupA rec.category cm with
            | none => simp [hA, hB, lookupA]
            | some km => simp [hA, hB]
    · rw [if_neg (fun hh => hc hh.2.1)]
      subst hs
      simp only [stepRec, lookup3]
      rw [lookupA_upsertA_self]
      simp only [Option.some_bind]
      rw [lookupA_upsertA_ne (fun hh => hc hh.symm)]
      cases hA : lookupA rec.state agg.states with
      | none => simp [hA, lookupA]
      | some cm => simp [hA]
  · rw [if_neg (fun hh => hs hh.1)]
    simp only [stepRec, lookup3]
    rw [lookupA_upsertA_ne (fun hh => hs hh.symm)]

/-- Category-level analogue of `lookup3_stepRec`. -/
theorem lookup2_stepRec (agg : Agg) (rec : Rec) (s c : String) :
    lookup2 (stepRec agg rec).states s c =
      if rec.state = s ∧ rec.category = c then
        some (upsertA (cropKeyOf rec.cropName) (freshCrop agg.nextId rec) (mergeRec rec)
          ((lookup2 agg.states s c).getD []))
      else lookup2 agg.states s c := by
  by_cases hs : rec.state = s
  · by_cases hc : rec.category = c
    · subst hs
      subst hc
      rw [if_pos ⟨rfl, rfl⟩]
      simp only [stepRec, lookup2]
      rw [lookupA_upsertA_self]
      simp only [Option.some_bind]
      rw [lookupA_upsertA_self]
      cases hA : lookupA rec.state agg.states with
      | none => simp [hA, lookupA]
      | some cm => simp [hA]
    · rw [if_neg (fun hh => hc hh.2)]
      subst hs
      simp only [stepRec, lookup2]
      rw [lookupA_upsertA_self]
      simp only [Option.some_bind]
      rw [lookupA_upsertA_ne (fun hh => hc hh.symm)]
      cases hA : lookupA rec.state agg.states with
      | none => simp [hA, lookupA]
      | some cm => simp [hA]
  · rw [if_neg (fun hh => hs hh.1)]
    simp only [stepRec, lookup2]
    rw [lookupA_upsertA_ne (fun hh => hs hh.symm)]

theorem demandOpt_stepRec (agg : Agg) (rec : Rec) (s c k : String) :
    demandOpt (lookup3 (stepRec agg rec).states s c k) =
      demandOpt (lookup3 agg.states s c k) +
        (if rec.state = s ∧ rec.category = c ∧ cropKeyOf rec.cropName = k then rec.qty else 0) := by
  rw [lookup3_stepRec]
  by_cases h : rec.state = s ∧ rec.category = c ∧ cropKeyOf rec.cropName = k
  · rw [if_pos h, if_pos h]
    cases hl : lookup3 agg.states s c k with
    | none => simp [demandOpt, mergeRec_demand, freshCrop]
    | some cr => simp [demandOpt, mergeRec_demand]
  · rw [if_neg h, if_neg h]
    simp

theorem isSome_lookup3_stepRec (agg : Agg) (rec : Rec) (s c k : String) :
    (lookup3 (stepRec agg rec).states s c k).isSome = true ↔
      ((rec.state = s ∧ rec.category = c ∧ cropKeyOf rec.cropName = k) ∨
        (lookup3 agg.states s c k).isSome = true) := by
  rw [lookup3_stepRec]
  by_cases h : rec.state = s ∧ rec.category = c ∧ cropKeyOf rec.cropName = k
  · simp [h]
  · simp [h]

theorem isSome_lookup2_stepRec (agg : Agg) (rec : Rec) (s c : String) :
    (lookup2 (stepRec agg rec).states s c).isSome = true ↔
      ((rec.state = s ∧ rec.category = c) ∨ (lookup2 agg.states s c).isSome = true) := by
  rw [lookup2_stepRec]
  by_cases h : rec.state = s ∧ rec.category = c
  · simp [h]
  · simp [h]

theorem mem_regions_stepRec (agg : Agg) (rec : Rec) (s c k : String) (f : RegionFact)
    (hreg : ∀ g ∈ regionsOpt (lookup3 agg.states s c k), g.geography = "India" ∧ g.state = s) :
    f ∈ regionsOpt (lookup3 (stepRec agg rec).states s c k) ↔
      (f ∈ regionsOpt (lookup3 agg.states s c k) ∨
        (rec.state = s ∧ rec.category = c ∧ cropKeyOf rec.cropName = k ∧ f = mkFact rec)) := by
  rw [lookup3_stepRec]
  by_cases h : rec.state = s ∧ rec.category = c ∧ cropKeyOf rec.cropName = k
  · rw [if_pos h]
    have hregs : ((lookup3 agg.states s c k).getD (freshCrop agg.nextId rec)).regionalSuitability
        = regionsOpt (lookup3 agg.states s c k) := by
      cases hl : lookup3 agg.states s c k with
      | none => simp [regionsOpt, freshCrop]
      | some cr => simp [regionsOpt]
    set x := (lookup3 agg.states s c k).getD (freshCrop agg.nextId rec) with hx
    have hmr : (mergeRec rec x).regionalSuitability =
        if x.regionalSuitability.any
            (fun s' => decide (s'.district = rec.district ∧ s'.suitability = (mkFact rec).suitability)) then
          x.regionalSuitability
        else x.regionalSuitability ++ [mkFact rec] := rfl
    rw [show regionsOpt (some (mergeRec rec x)) = (mergeRec rec x).regionalSuitability from rfl]
    rw [hmr]
    by_cases hany : x.regionalSuitability.any
        (fun s' => decide (s'.district = rec.district ∧ s'.suitability = (mkFact rec).suitability)) = true
    · rw [if_pos hany]
      constructor
      · intro hf
        exact Or.inl (hregs ▸ hf)
      · rintro (hf | ⟨_, _, _, rfl⟩)
        · exact hregs ▸ hf
        · obtain ⟨g, hg, hgp⟩ := List.any_eq_true.mp hany
          obtain ⟨hgd, hgs⟩ := of_decide_eq_true hgp
          obtain ⟨hgwf1, hgwf2⟩ := hreg g (hregs ▸ hg)
          have hgm : g = mkFact rec := by
            obtain ⟨geo, dist, st, su⟩ := g
            simp only [mkFact]
            simp only [mkFact] at hgs
            simp only at hgd hgwf1 hgwf2
            rw [hgd, hgs, hgwf1, hgwf2, h.1]
          exact hgm ▸ hg
    · rw [if_neg hany]
      rw [List.mem_append, List.mem_singleton]
      constructor
      · rintro (hf | hf)
        · exact Or.inl (hregs ▸ hf)
        · exact Or.inr ⟨h.1, h.2.1, h.2.2, hf⟩
      · rintro (hf | ⟨_, _, _, rfl⟩)
        · exact Or.inl (hregs ▸ hf)
        · exact Or.inr rfl
  · rw [if_neg h]
    constructor
    · intro hf
      exact Or.inl hf
    · rintro (hf | ⟨h1, h2, h3, _⟩)
      · exact hf
      · exact absurd ⟨h1, h2, h3⟩ h

/-! ### Well-formedness invariant of the aggregation state -/

theorem RegionsWF_mergeRec {s : String} {rec : Rec} (hrs : rec.state = s) {c : Crop}
    (hc : RegionsWF s c) : RegionsWF s (mergeRec rec c) := by
  have hmr : (mergeRec rec c).regionalSuitability =
      if c.regionalSuitability.any
          (fun s' => decide (s'.district = rec.district ∧ s'.suitability = (mkFact rec).suitability)) then
        c.regionalSuitability
      else c.regionalSuitability ++ [mkFact rec] := rfl
  constructor
  · intro f hf
    rw [hmr] at hf
    by_cases hany : c.regionalSuitability.any
        (fun s' => decide (s'.district = rec.district ∧ s'.suitability = (mkFact rec).suitability)) = true
    · exact hc.1 f (by rwa [if_pos hany] at hf)
    · rw [if_neg hany, List.mem_append, List.mem_singleton] at hf
      rcases hf with hf | rfl
      · exact hc.1 f hf
      · exact ⟨rfl, hrs⟩
  · rw [hmr]
    by_cases hany : c.regionalSuitability.any
        (fun s' => decide (s'.district = rec.district ∧ s'.suitability = (mkFact rec).suitability)) = true
    · rw [if_pos hany]
      exact hc.2
    · rw [if_neg hany]
      rw [List.pairwise_append]
      refine ⟨hc.2, List.pairwise_singleton _ _, ?_⟩
      intro a ha b hb
      rw [List.mem_singleton] at hb
      subst hb
      intro hab
      apply hany
      rw [List.any_eq_true]
      exact ⟨a, ha, decide_eq_true ⟨hab.1, hab.2⟩⟩

theorem RegionsWF_freshCrop (s : String) (id : ℕ) (rec : Rec) :
    RegionsWF s (freshCrop id rec) := by
  constructor
  · intro f hf
    simp [freshCrop] at hf
  · simp [freshCrop]

theorem CropsWF_upsert {s : String} {rec : Rec} (hrs : rec.state = s) (id : ℕ) {km : CropsMap}
    (h : CropsWF s km) :
    CropsWF s (upsertA (cropKeyOf rec.cropName) (freshCrop id rec) (mergeRec rec) km) := by
  constructor
  · exact nodup_keysA_upsertA h.1 _ _ _
  · intro q hq
    rcases mem_upsertA hq with hq' | hq'
    · exact h.2 q hq'
    · subst hq'
      cases hl : lookupA (cropKeyOf rec.cropName) km with
      | none =>
          refine ⟨?_, RegionsWF_mergeRec hrs (RegionsWF_freshCrop s id rec)⟩
          simp [mergeRec_cropName, freshCrop]
      | some cr =>
          have hmem := h.2 _ (mem_of_lookupA hl)
          refine ⟨?_, RegionsWF_mergeRec hrs hmem.2⟩
          simpa [mergeRec_cropName] using hmem.1

theorem CatWF_upsert {s : String} {rec : Rec} (hrs : rec.state = s)
    (hcatv : rec.category ∈ VALID_CATEGORIES) (id : ℕ) {cm : CatMap} (h : CatWF s cm) :
    CatWF s (upsertA rec.category []
      (upsertA (cropKeyOf rec.cropName) (freshCrop id rec) (mergeRec rec)) cm) := by
  constructor
  · exact nodup_keysA_upsertA h.1 _ _ _
  · intro q hq
    rcases mem_upsertA hq with hq' | hq'
    · exact h.2 q hq'
    · subst hq'
      refine ⟨hcatv, ?_⟩
      cases hl : lookupA rec.category cm with
      | none => exact CropsWF_upsert hrs id ⟨List.nodup_nil, by simp⟩
      | some km => exact CropsWF_upsert hrs id (h.2 _ (mem_of_lookupA hl)).2

theorem WF_stepRec (agg : Agg) (rec : Rec) (hcatv : rec.category ∈ VALID_CATEGORIES)
    (h : WF agg.states) : WF (stepRec agg rec).states := by
  constructor
  · exact nodup_keysA_upsertA h.1 _ _ _
  · intro p hp
    rcases mem_upsertA hp with hp' | hp'
    · exact h.2 p hp'
    · subst hp'
      cases hl : lookupA rec.state agg.states with
      | none => exact CatWF_upsert rfl hcatv agg.nextId ⟨List.nodup_nil, by simp⟩
      | some cm => exact CatWF_upsert rfl hcatv agg.nextId (h.2 _ (mem_of_lookupA hl))

theorem WF_empty : WF emptyAgg.states := by
  constructor
  · simp [emptyAgg, keysA]
  · simp [emptyAgg]

theorem normalize_category_mem {r : Row} {rec : Rec} (h : normalize r = some rec) :
    rec.category ∈ VALID_CATEGORIES := by
  simp only [normalize] at h
  split at h
  · exact absurd h (by simp)
  · split at h
    · exact absurd h (by simp)
    · split at h
      · exact absurd h (by simp)
      · split at h
        · rename_i hmem
          obtain rfl := Option.some.inj h
          exact hmem
        · exact absurd h (by simp)

/-- Every region fact reachable via `lookup3` in a well-formed map carries the
constant geography and its state's name. -/
theorem regions_field_of_WF {m : StatesMap} (h : WF m) (s c k : String) :
    ∀ g ∈ regionsOpt (lookup3 m s c k), g.geography = "India" ∧ g.state = s := by
  intro g hg
  cases hA : lookupA s m with
  | none => simp [lookup3, regionsOpt, hA] at hg
  | some cm =>
      cases hB : lookupA c cm with
      | none => simp [lookup3, regionsOpt, hA, hB] at hg
      | some km =>
          cases hC : lookupA k km with
          | none => simp [lookup3, regionsOpt, hA, hB, hC] at hg
          | some cr =>
              have hg' : g ∈ cr.regionalSuitability := by
                simpa [lookup3, regionsOpt, hA, hB, hC] using hg
              have h1 := h.2 _ (mem_of_lookupA hA)
              have h2 := (h1.2 _ (mem_of_lookupA hB)).2
              have h3 := (h2.2 _ (mem_of_lookupA hC)).2
              exact h3.1 g hg'

/-! ### Fold-level characterization of the aggregation -/

theorem foldl_step_filterMap (rows : List Row) (agg : Agg) :
    rows.foldl step agg = (rows.filterMap normalize).foldl stepRec agg := by
  induction rows generalizing agg with
  | nil => rfl
  | cons r t ih =>
      cases hn : normalize r with
      | none => simp [List.foldl_cons, List.filterMap_cons, hn, step, ih]
      | some rec => simp [List.foldl_cons, List.filterMap_cons, hn, step, ih]

theorem demandOpt_foldRec (recs : List Rec) (agg : Agg) (s c k : String) :
    demandOpt (lookup3 (recs.foldl stepRec agg).states s c k) =
      demandOpt (lookup3 agg.states s c k) +
        ((recs.filter (fun r =>
          decide (r.state = s ∧ r.category = c ∧ cropKeyOf r.cropName = k))).map Rec.qty).sum := by
  induction recs generalizing agg with
  | nil => simp
  | cons r t ih =>
      rw [List.foldl_cons, ih, demandOpt_stepRec]
      by_cases h : r.state = s ∧ r.category = c ∧ cropKeyOf r.cropName = k
      · rw [if_pos h, List.filter_cons_of_pos (by simpa using h), List.map_cons, List.sum_cons]
        ring
      · rw [if_neg h, List.filter_cons_of_neg (by simpa using h)]
        ring

theorem isSome_lookup3_foldRec (recs : List Rec) (agg : Agg) (s c k : String) :
    (lookup3 ((recs.foldl stepRec agg)).states s c k).isSome = true ↔
      ((lookup3 agg.states s c k).isSome = true ∨
        ∃ r ∈ recs, r.state = s ∧ r.category = c ∧ cropKeyOf r.cropName = k) := by
  induction recs generalizing agg with
  | nil => simp
  | cons r t ih =>
      rw [List.foldl_cons, ih, isSome_lookup3_stepRec]
      constructor
      · rintro ((htrip | hsome) | ⟨x, hx, hp⟩)
        · exact Or.inr ⟨r, List.mem_cons_self r t, htrip⟩
        · exact Or.inl hsome
        · exact Or.inr ⟨x, List.mem_cons_of_mem r hx, hp⟩
      · rintro (hsome | ⟨x, hx, hp⟩)
        · exact Or.inl (Or.inr hsome)
        · rcases List.mem_cons.mp hx with rfl | hx'
          · exact Or.inl (Or.inl hp)
          · exact Or.inr ⟨x, hx', hp⟩

theorem isSome_lookup2_foldRec (recs : List Rec) (agg : Agg) (s c : String) :
    (lookup2 ((recs.foldl stepRec agg)).states s c).isSome = true ↔
      ((lookup2 agg.states s c).isSome = true ∨
        ∃ r ∈ recs, r.state = s ∧ r.category = c) := by
  induction recs generalizing agg with
  | nil => simp
  | cons r t ih =>
      rw [List.foldl_cons, ih, isSome_lookup2_stepRec]
      constructor
      · rintro ((htrip | hsome) | ⟨x, hx, hp⟩)
        · exact Or.inr ⟨r, List.mem_cons_self r t, htrip⟩
        · exact Or.inl hsome
        · exact Or.inr ⟨x, List.mem_cons_of_mem r hx, hp⟩
      · rintro (hsome | ⟨x, hx, hp⟩)
        · exact Or.inl (Or.inr hsome)
        · rcases List.mem_cons.mp hx with rfl | hx'
          · exact Or.inl (Or.inl hp)
          · exact Or.inr ⟨x, hx', hp⟩

theorem WF_foldRec (recs : List Rec) (agg : Agg) (hWF : WF agg.states)
    (hcat : ∀ r ∈ recs, r.category ∈ VALID_CATEGORIES) :
    WF ((recs.foldl stepRec agg).states) := by
  induction recs generalizing agg with
  | nil => exact hWF
  | cons r t ih =>
      rw [List.foldl_cons]
      exact ih (stepRec agg r)
        (WF_stepRec agg r (hcat r (List.mem_cons_self r t)) hWF)
        (fun x hx => hcat x (List.mem_cons_of_mem r hx))

theorem mem_regions_foldRec (recs : List Rec) (agg : Agg) (hWF : WF agg.states)
    (hcat : ∀ r ∈ recs, r.category ∈ VALID_CATEGORIES) (s c k : String) (f : RegionFact) :
    f ∈ regionsOpt (lookup3 ((recs.foldl stepRec agg)).states s c k) ↔
      (f ∈ regionsOpt (lookup3 agg.states s c k) ∨
        ∃ r ∈ recs, r.state = s ∧ r.category = c ∧ cropKeyOf r.cropName = k ∧ f = mkFact r) := by
  induction recs generalizing agg with
  | nil => simp
  | cons r t ih =>
      have hWF' : WF (stepRec agg r).states :=
        WF_stepRec agg r (hcat r (List.mem_cons_self r t)) hWF
      rw [List.foldl_cons, ih (stepRec agg r) hWF' (fun x hx => hcat x (List.mem_cons_of_mem r hx)),
        mem_regions_stepRec agg r s c k f (regions_field_of_WF hWF s c k)]
      constructor
      · rintro ((hf | htrip) | ⟨x, hx, hp⟩)
        · exact Or.inl hf
        · exact Or.inr ⟨r, List.mem_cons_self r t, htrip⟩
        · exact Or.inr ⟨x, List.mem_cons_of_mem r hx, hp⟩
      · rintro (hf | ⟨x, hx, hp⟩)
        · exact Or.inl (Or.inl hf)
        · rcases List.mem_cons.mp hx with rfl | hx'
          · exact Or.inl (Or.inr hp)
          · exact Or.inr ⟨x, hx', hp⟩

theorem aggTotal_stepRec (agg : Agg) (rec : Rec) :
    aggTotal (stepRec agg rec).states = aggTotal agg.states + rec.qty := by
  have inner : ∀ w : CropsMap,
      sumVals Crop.demandQuantity
        (upsertA (cropKeyOf rec.cropName) (freshCrop agg.nextId rec) (mergeRec rec) w) =
      sumVals Crop.demandQuantity w + rec.qty := fun w =>
    sumVals_upsertA Crop.demandQuantity (cropKeyOf rec.cropName) (freshCrop agg.nextId rec)
      (mergeRec rec) rec.qty (fun cr => mergeRec_demand rec cr) rfl w
  have middle : ∀ v : CatMap,
      sumVals (sumVals Crop.demandQuantity)
        (upsertA rec.category []
          (upsertA (cropKeyOf rec.cropName) (freshCrop agg.nextId rec) (mergeRec rec)) v) =
      sumVals (sumVals Crop.demandQuantity) v + rec.qty := fun v =>
    sumVals_upsertA (sumVals Crop.demandQuantity) rec.category []
      (upsertA (cropKeyOf rec.cropName) (freshCrop agg.nextId rec) (mergeRec rec))
      rec.qty inner rfl v
  simp only [stepRec, aggTotal]
  exact sumVals_upsertA (sumVals (sumVals Crop.demandQuantity)) rec.state []
    (upsertA rec.category []
      (upsertA (cropKeyOf rec.cropName) (freshCrop agg.nextId rec) (mergeRec rec)))
    rec.qty middle rfl agg.states

theorem aggTotal_foldRec (recs : List Rec) (agg : Agg) :
    aggTotal ((recs.foldl stepRec agg).states) = aggTotal agg.states + (recs.map Rec.qty).sum := by
  induction recs generalizing agg with
  | nil => simp
  | cons r t ih =>
      rw [List.foldl_cons, ih, aggTotal_stepRec, List.map_cons, List.sum_cons]
      ring

/-! ### Characterizations of the full aggregation run -/

theorem WF_aggregate (rows : List Row) : WF (aggregate rows).states := by
  rw [aggregate, foldl_step_filterMap]
  refine WF_foldRec _ _ WF_empty ?_
  intro r hr
  obtain ⟨row, _, hn⟩ := List.mem_filterMap.mp hr
  exact normalize_category_mem hn

theorem demandOpt_aggregate (rows : List Row) (s c k : String) :
    demandOpt (lookup3 (aggregate rows).states s c k) =
      (((acceptedRecs rows).filter (fun r =>
        decide (r.state = s ∧ r.category = c ∧ cropKeyOf r.cropName = k))).map Rec.qty).sum := by
  rw [aggregate, foldl_step_filterMap, demandOpt_foldRec]
  simp [emptyAgg, lookup3, lookupA, demandOpt, acceptedRecs]

theorem isSome_lookup3_aggregate (rows : List Row) (s c k : String) :
    (lookup3 (aggregate rows).states s c k).isSome = true ↔
      ∃ r ∈ acceptedRecs rows, r.state = s ∧ r.category = c ∧ cropKeyOf r.cropName = k := by
  rw [aggregate, foldl_step_filterMap, isSome_lookup3_foldRec]
  simp [emptyAgg, lookup3, lookupA, acceptedRecs]

theorem isSome_lookup2_aggregate (rows : List Row) (s c : String) :
    (lookup2 (aggregate rows).states s c).isSome = true ↔
      ∃ r ∈ acceptedRecs rows, r.state = s ∧ r.category = c := by
  rw [aggregate, foldl_step_filterMap, isSome_lookup2_foldRec]
  simp [emptyAgg, lookup2, lookupA, acceptedRecs]

theorem mem_regions_aggregate (rows : List Row) (s c k : String) (f : RegionFact) :
    f ∈ regionsOpt (lookup3 (aggregate rows).states s c k) ↔
      ∃ r ∈ acceptedRecs rows,
        r.state = s ∧ r.category = c ∧ cropKeyOf r.cropName = k ∧ f = mkFact r := by
  rw [aggregate, foldl_step_filterMap]
  rw [mem_regions_foldRec _ _ WF_empty
    (fun r hr => by
      obtain ⟨row, _, hn⟩ := List.mem_filterMap.mp hr
      exact normalize_category_mem hn)]
  simp [emptyAgg, lookup3, lookupA, regionsOpt, acceptedRecs]

theorem aggTotal_aggregate (rows : List Row) :
    aggTotal (aggregate rows).states = ((acceptedRecs rows).map Rec.qty).sum := by
  rw [aggregate, foldl_step_filterMap, aggTotal_foldRec]
  simp [emptyAgg, aggTotal, sumVals, acceptedRecs]

/-! ### Bridging the aggregation maps and the finalized snapshot -/

theorem lookupA_eq_none {V : Type} {l : List (String × V)} {k : String}
    (h : k ∉ keysA l) : lookupA k l = none := by
  cases hh : lookupA k l with
  | none => rfl
  | some v => exact absurd (lookupA_isSome_iff.mp (by simp [hh])) h

theorem sum_map_ite (names : List String) (hn : names.Nodup) (k₀ : String) (hk : k₀ ∈ names)
    (v : ℚ) (A : String → ℚ) (hA : A k₀ = 0) :
    (names.map (fun n => if k₀ = n then v else A n)).sum = v + (names.map A).sum := by
  induction names with
  | nil => simp at hk
  | cons n ns ih =>
      rcases List.mem_cons.mp hk with he | hk'
      · subst he
        rw [List.map_cons, List.sum_cons, if_pos rfl]
        have hn0 : k₀ ∉ ns := (List.nodup_cons.mp hn).1
        have hmap : ns.map (fun n' => if k₀ = n' then v else A n') = ns.map A := by
          apply List.map_congr_left
          intro x hx
          have : ¬ k₀ = x := fun he' => hn0 (he' ▸ hx)
          rw [if_neg this]
        rw [hmap, List.map_cons, List.sum_cons, hA]
        ring
      · rw [List.map_cons, List.sum_cons, List.map_cons, List.sum_cons]
        by_cases he : k₀ = n
        · exact absurd hk' (he ▸ (List.nodup_cons.mp hn).1)
        · rw [if_neg he, ih (List.nodup_cons.mp hn).2 hk']
          ring

/-- Iterating a duplicate-free name list over a distinct-key map whose keys
all occur among the names visits each entry exactly once. -/
theorem sum_over_names {V : Type} (g : V → ℚ) (names : List String) (hn : names.Nodup)
    (m : List (String × V)) (hm : (keysA m).Nodup) (hsub : ∀ p ∈ m, p.1 ∈ names) :
    (names.map (fun n => (Option.map g (lookupA n m)).getD 0)).sum = sumVals g m := by
  induction m with
  | nil =>
      rw [show sumVals g ([] : List (String × V)) = 0 from rfl]
      rw [List.sum_eq_zero]
      intro x hx
      obtain ⟨n, _, rfl⟩ := List.mem_map.mp hx
      simp [lookupA]
  | cons p t ih =>
      obtain ⟨k₀, v₀⟩ := p
      simp only [keysA, List.map_cons, List.nodup_cons] at hm
      have hk0 : k₀ ∈ names := hsub (k₀, v₀) (List.mem_cons_self _ _)
      have hA0 : (Option.map g (lookupA k₀ t)).getD 0 = 0 := by
        rw [lookupA_eq_none hm.1]
        rfl
      have hmap : names.map (fun n => (Option.map g (lookupA n ((k₀, v₀) :: t))).getD 0) =
          names.map (fun n => if k₀ = n then g v₀ else (Option.map g (lookupA n t)).getD 0) := by
        apply List.map_congr_left
        intro n _
        by_cases he : k₀ = n
        · rw [if_pos he]
          rw [show lookupA n ((k₀, v₀) :: t) = some v₀ from by simp [lookupA, he]]
          rfl
        · rw [if_neg he]
          rw [show lookupA n ((k₀, v₀) :: t) = lookupA n t from by simp [lookupA, he]]
      rw [hmap, sum_map_ite names hn k₀ hk0 (g v₀) _ hA0,
        ih hm.2 (fun q hq => hsub q (List.mem_cons_of_mem _ hq))]
      rw [show sumVals g ((k₀, v₀) :: t) = g v₀ + sumVals g t from by
        simp [sumVals]]

theorem VALID_CATEGORIES_nodup : VALID_CATEGORIES.Nodup := by decide

theorem finalizeCat_name (catMap : CatMap) (cname : String) :
    (finalizeCat catMap cname).name = cname := by
  cases hl : lookupA cname catMap with
  | none => simp [finalizeCat, hl]
  | some km => simp [finalizeCat, hl]

theorem finalizeState_state (now : String) (p : String × CatMap) :
    (finalizeState now p).state = p.1 := rfl

theorem finalizeState_categories (now : String) (p : String × CatMap) :
    (finalizeState now p).categories = VALID_CATEGORIES.map (finalizeCat p.2) := rfl

theorem finalizeState_catnames (now : String) (p : String × CatMap) :
    (finalizeState now p).categories.map CatOut.name = VALID_CATEGORIES := by
  rw [finalizeState_categories, List.map_map]
  rw [List.map_congr_left (fun cname _ => by
    show (CatOut.name ∘ finalizeCat p.2) cname = id cname
    exact finalizeCat_name p.2 cname)]
  exact List.map_id _

/-- Every crop of a finalized snapshot is found back in the aggregation map at
its state, category name and crop key. -/
theorem snapshot_crop_lookup (agg : Agg) (hWF : WF agg.states) (now : String) :
    ∀ st ∈ finalizeData agg now, ∀ cat ∈ st.categories, ∀ crop ∈ cat.crops,
      lookup3 agg.states st.state cat.name (cropKeyOf crop.cropName) = some crop := by
  intro st hst cat hcat crop hcrop
  obtain ⟨p, hp, rfl⟩ := List.mem_map.mp hst
  obtain ⟨s, catMap⟩ := p
  rw [finalizeState_categories] at hcat
  obtain ⟨cname, _, rfl⟩ := List.mem_map.mp hcat
  cases hl : lookupA cname catMap with
  | none =>
      rw [show finalizeCat catMap cname = ⟨cname, 0, []⟩ from by simp [finalizeCat, hl]] at hcrop
      simp at hcrop
  | some km =>
      rw [show (finalizeCat catMap cname).crops = km.map Prod.snd from by
        simp [finalizeCat, hl]] at hcrop
      obtain ⟨q, hq, rfl⟩ := List.mem_map.mp hcrop
      obtain ⟨qk, qc⟩ := q
      have hcatwf : CatWF s catMap := hWF.2 _ hp
      have hkmwf := hcatwf.2 _ (mem_of_lookupA hl)
      have hkey : qk = cropKeyOf qc.cropName := (hkmwf.2.2 _ hq).1
      have h1 : lookupA s agg.states = some catMap := lookupA_eq_of_mem hWF.1 hp
      have h3 : lookupA (cropKeyOf qc.cropName) km = some qc := by
        rw [← hkey]
        exact lookupA_eq_of_mem hkmwf.2.1 hq
      rw [finalizeState_state, finalizeCat_name]
      simp [lookup3, h1, hl, h3]

/-- Total snapshot demand equals the aggregation map's total. -/
theorem snapshotDemand_finalizeData (agg : Agg) (hWF : WF agg.states) (now : String) :
    snapshotDemand (finalizeData agg now) = aggTotal agg.states := by
  unfold snapshotDemand finalizeData aggTotal
  rw [List.map_map]
  apply congrArg List.sum
  apply List.map_congr_left
  intro p hp
  obtain ⟨s, catMap⟩ := p
  have hcatwf : CatWF s catMap := hWF.2 _ hp
  show ((finalizeState now (s, catMap)).categories.map fun cat =>
      (cat.crops.map Crop.demandQuantity).sum).sum = sumVals (sumVals Crop.demandQuantity) catMap
  rw [finalizeState_categories, List.map_map]
  rw [List.map_congr_left (fun cname _ => by
    show ((finalizeCat catMap cname).crops.map Crop.demandQuantity).sum =
      (Option.map (sumVals Crop.demandQuantity) (lookupA cname catMap)).getD 0
    cases hl : lookupA cname catMap with
    | none => simp [finalizeCat, hl]
    | some km =>
        simp only [finalizeCat, hl, Option.map_some', Option.getD_some]
        rw [List.map_map]
        rfl)]
  exact sum_over_names (sumVals Crop.demandQuantity) VALID_CATEGORIES VALID_CATEGORIES_nodup
    catMap hcatwf.1 (fun q hq => (hcatwf.2 q hq).1)

theorem getD_zero_mem {A : Type} (l : List A) (d : A) (h : l ≠ []) : l.getD 0 d ∈ l := by
  cases l with
  | nil => exact absurd rfl h
  | cons x t => simp [List.getD]

theorem regionsWF_of_lookup3 {m : StatesMap} (h : WF m) {s c k : String} {cr : Crop}
    (hl : lookup3 m s c k = some cr) : RegionsWF s cr := by
  cases hA : lookupA s m with
  | none => rw [lookup3, hA] at hl; simp at hl
  | some cm =>
      rw [lookup3, hA] at hl
      simp only [Option.some_bind] at hl
      cases hB : lookupA c cm with
      | none => rw [hB] at hl; simp at hl
      | some km =>
          rw [hB] at hl
          simp only [Option.some_bind] at hl
          exact ((((h.2 _ (mem_of_lookupA hA)).2 _ (mem_of_lookupA hB)).2).2 _
            (mem_of_lookupA hl)).2

/-! ### The claims -/

/-- C1: Demand conservation: (a) each crop's demandQuantity equals the sum of
the quantities of every accepted row that merged into that crop (same state,
same normalized category, same crop dedup key); (b) the sum of demandQuantity
over all crops of the snapshot equals the sum of quantity over all accepted
input rows. -/
theorem C1_demand_conservation (rows : List Row) (now : String) :
    (∀ st ∈ buildSnapshot rows now, ∀ cat ∈ st.categories, ∀ crop ∈ cat.crops,
      crop.demandQuantity =
        (((acceptedRecs rows).filter (fun r =>
          decide (r.state = st.state ∧ r.category = cat.name ∧
            cropKeyOf r.cropName = cropKeyOf crop.cropName))).map Rec.qty).sum) ∧
    snapshotDemand (buildSnapshot rows now) = ((acceptedRecs rows).map Rec.qty).sum := by
  constructor
  · intro st hst cat hcat crop hcrop
    have hWF := WF_aggregate rows
    have hl := snapshot_crop_lookup (aggregate rows) hWF now st hst cat hcat crop hcrop
    have hd := demandOpt_aggregate rows st.state cat.name (cropKeyOf crop.cropName)
    rw [hl] at hd
    simpa [demandOpt] using hd
  · rw [buildSnapshot, snapshotDemand_finalizeData _ (WF_aggregate rows), aggTotal_aggregate]

theorem C1_demand_conservation_witness :
    (wCrop.demandQuantity =
      (((acceptedRecs wRows).filter (fun r =>
        decide (r.state = wState.state ∧ r.category = wCat.name ∧
          cropKeyOf r.cropName = cropKeyOf wCrop.cropName))).map Rec.qty).sum) ∧
    snapshotDemand (buildSnapshot wRows "t") = ((acceptedRecs wRows).map Rec.qty).sum :=
  ⟨(C1_demand_conservation wRows "t").1 wState (getD_zero_mem _ _ (by decide))
      wCat (getD_zero_mem _ _ (by decide)) wCrop (getD_zero_mem _ _ (by decide)),
   (C1_demand_conservation wRows "t").2⟩

/-- C3: Completeness invariant: every state of a produced snapshot lists
exactly the fixed category set, in canonical order; counts always match the
crop lists, and a category that received no accepted row is present with
count 0 and an empty crop list. -/
theorem C3_category_completeness (rows : List Row) (now : String) :
    ∀ st ∈ buildSnapshot rows now,
      st.categories.map CatOut.name = VALID_CATEGORIES ∧
      ∀ cat ∈ st.categories,
        cat.count = cat.crops.length ∧
        ((¬ ∃ r ∈ acceptedRecs rows, r.state = st.state ∧ r.category = cat.name) →
          cat.count = 0 ∧ cat.crops = []) := by
  intro st hst
  obtain ⟨p, hp, rfl⟩ := List.mem_map.mp hst
  obtain ⟨s, catMap⟩ := p
  refine ⟨finalizeState_catnames now (s, catMap), ?_⟩
  intro cat hcat
  rw [finalizeState_categories] at hcat
  obtain ⟨cname, _, rfl⟩ := List.mem_map.mp hcat
  constructor
  · cases hl : lookupA cname catMap with
    | none => simp [finalizeCat, hl]
    | some km => simp [finalizeCat, hl]
  · intro hno
    rw [finalizeState_state] at hno
    rw [finalizeCat_name] at hno
    have h2 : lookup2 (aggregate rows).states s cname = none := by
      cases h2 : lookup2 (aggregate rows).states s cname with
      | none => rfl
      | some km =>
          exact absurd ((isSome_lookup2_aggregate rows s cname).mp (by simp [h2])) hno
    have hWF := WF_aggregate rows
    have h1 : lookupA s (aggregate rows).states = some catMap := lookupA_eq_of_mem hWF.1 hp
    rw [lookup2, h1] at h2
    simp only [Option.some_bind] at h2
    simp [finalizeCat, h2]

theorem C3_category_completeness_witness :
    wState.categories.map CatOut.name = VALID_CATEGORIES ∧
    wCat.count = wCat.crops.length :=
  ⟨(C3_category_completeness wRows "t" wState (getD_zero_mem _ _ (by decide))).1,
   ((C3_category_completeness wRows "t" wState (getD_zero_mem _ _ (by decide))).2
      wCat (getD_zero_mem _ _ (by decide))).1⟩

/-- C4: Region dedup invariant: no crop of a produced snapshot carries two
region facts with the same (district, suitability); and every accepted row
that merged into the crop has its (district, defaulted suitability) fact
retained, so facts for one district at distinct suitabilities coexist. -/
theorem C4_region_dedup (rows : List Row) (now : String) :
    ∀ st ∈ buildSnapshot rows now, ∀ cat ∈ st.categories, ∀ crop ∈ cat.crops,
      crop.regionalSuitability.Pairwise
        (fun a b => ¬(a.district = b.district ∧ a.suitability = b.suitability)) ∧
      ∀ r ∈ acceptedRecs rows,
        r.state = st.state → r.category = cat.name →
        cropKeyOf r.cropName = cropKeyOf crop.cropName →
        ∃ f ∈ crop.regionalSuitability,
          f.district = r.district ∧
          f.suitability = (if r.suitability = "" then "Medium" else r.suitability) := by
  intro st hst cat hcat crop hcrop
  have hWF := WF_aggregate rows
  have hl := snapshot_crop_lookup (aggregate rows) hWF now st hst cat hcat crop hcrop
  constructor
  · exact (regionsWF_of_lookup3 hWF hl).2
  · intro r hr h1 h2 h3
    have hmem : mkFact r ∈ regionsOpt (lookup3 (aggregate rows).states st.state cat.name
        (cropKeyOf crop.cropName)) :=
      (mem_regions_aggregate rows st.state cat.name (cropKeyOf crop.cropName) (mkFact r)).mpr
        ⟨r, hr, h1, h2, h3, rfl⟩
    rw [hl] at hmem
    exact ⟨mkFact r, hmem, rfl, rfl⟩

theorem C4_region_dedup_witness :
    wCrop.regionalSuitability.Pairwise
      (fun a b => ¬(a.district = b.district ∧ a.suitability = b.suitability)) :=
  (C4_region_dedup wRows "t" wState (getD_zero_mem _ _ (by decide))
    wCat (getD_zero_mem _ _ (by decide)) wCrop (getD_zero_mem _ _ (by decide))).1

theorem mapCategoryToValid_mem {c n v : String} (h : mapCategoryToValid c n = some v) :
    v ∈ VALID_CATEGORIES := by
  simp only [mapCategoryToValid] at h
  by_cases h0 : c = ""
  · rw [if_pos h0] at h
    exact Option.noConfusion h
  · rw [if_neg h0] at h
    cases hf : VALID_CATEGORIES.find? (fun cat => toLowerStr (trimStr c) = toLowerStr cat) with
    | some d =>
        rw [hf] at h
        have h' : some d = some v := h
        obtain rfl := Option.some.inj h'
        exact List.mem_of_find?_eq_some hf
    | none =>
        rw [hf] at h
        simp only [] at h
        by_cases h1 : toLowerStr (trimStr c) = "spices"
        · rw [if_pos h1] at h
          obtain rfl := Option.some.inj h
          decide
        rw [if_neg h1] at h
        by_cases h2 : toLowerStr (trimStr c) = "cereals"
        · rw [if_pos h2] at h
          obtain rfl := Option.some.inj h
          decide
        rw [if_neg h2] at h
        by_cases h3 : toLowerStr (trimStr c) = "pulses"
        · rw [if_pos h3] at h
          obtain rfl := Option.some.inj h
          decide
        rw [if_neg h3] at h
        by_cases h4 : toLowerStr (trimStr c) = "oil seeds" ∨ toLowerStr (trimStr c) = "oilseeds"
        · rw [if_pos h4] at h
          obtain rfl := Option.some.inj h
          decide
        rw [if_neg h4] at h
        by_cases h5 : toLowerStr (trimStr c) = "oils and fats" ∨ toLowerStr (trimStr c) = "oil and fats"
        · rw [if_pos h5] at h
          obtain rfl := Option.some.inj h
          decide
        rw [if_neg h5] at h
        by_cases h6 : toLowerStr (trimStr c) = "fibre crops" ∨ toLowerStr (trimStr c) = "fiber crops"
        · rw [if_pos h6] at h
          obtain rfl := Option.some.inj h
          decide
        rw [if_neg h6] at h
        by_cases h7 : toLowerStr (trimStr c) = "forest products"
        · rw [if_pos h7] at h
          obtain rfl := Option.some.inj h
          decide
        rw [if_neg h7] at h
        by_cases h8 : toLowerStr (trimStr c) = "flowers"
        · rw [if_pos h8] at h
          obtain rfl := Option.some.inj h
          decide
        rw [if_neg h8] at h
        by_cases h9 : toLowerStr (trimStr c) = "dry fruits"
        · rw [if_pos h9] at h
          obtain rfl := Option.some.inj h
          decide
        rw [if_neg h9] at h
        by_cases h10 : toLowerStr (trimStr c) = "beverages"
        · rw [if_pos h10] at h
          obtain rfl := Option.some.inj h
          decide
        rw [if_neg h10] at h
        by_cases h11 : strContains (toLowerStr (trimStr c)) "live stock" = true ∨ strContains (toLowerStr (trimStr c)) "livestock" = true
        · rw [if_pos h11] at h
          obtain rfl := Option.some.inj h
          decide
        rw [if_neg h11] at h
        by_cases h12 : toLowerStr (trimStr c) = "drug and narcotics" ∨ toLowerStr (trimStr c) = "drug & narcotics"
        · rw [if_pos h12] at h
          obtain rfl := Option.some.inj h
          decide
        rw [if_neg h12] at h
        by_cases h13 : toLowerStr (trimStr c) = "other"
        · rw [if_pos h13] at h
          obtain rfl := Option.some.inj h
          decide
        rw [if_neg h13] at h
        exact Option.noConfusion h

theorem categoryResolve_mem {c n v : String} (h : categoryResolve c n = some v) :
    v ∈ VALID_CATEGORIES := by
  unfold categoryResolve at h
  split at h
  · rename_i directMatch hfind
    obtain rfl := Option.some.inj h
    exact List.mem_of_find?_eq_some hfind
  · exact mapCategoryToValid_mem h

/-- C6: The normalizer silently rejects a row — producing no record and
leaving the aggregation state unchanged — exactly when the row is missing
state, category or crop name, when its quantity parses to a value ≤ 0, or
when its category matches neither the fixed allowed set case-insensitively
nor the fallback classifier; in particular a row with quantity 0 never
produces or augments a crop. -/
theorem C6_silent_rejection (r : Row) :
    (normalize r = none ↔
      (rowState r = "" ∨ rowCategory r = "" ∨ rowCropName r = "" ∨ rowQty r ≤ 0 ∨
        categoryResolve (rowCategory r) (rowCropName r) = none)) ∧
    (normalize r = none → ∀ agg, step agg r = agg) ∧
    (rowQty r = 0 → ∀ agg, step agg r = agg) := by
  have hiff : normalize r = none ↔
      (rowState r = "" ∨ rowCategory r = "" ∨ rowCropName r = "" ∨ rowQty r ≤ 0 ∨
        categoryResolve (rowCategory r) (rowCropName r) = none) := by
    by_cases h1 : rowState r = "" ∨ rowCategory r = "" ∨ rowCropName r = ""
    · have hn : normalize r = none := by
        simp only [normalize]
        rw [if_pos h1]
      rw [hn]
      simp only [true_iff]
      tauto
    · by_cases h2 : rowQty r ≤ 0
      · have hn : normalize r = none := by
          simp only [normalize]
          rw [if_neg h1, if_pos h2]
        rw [hn]
        simp only [true_iff]
        tauto
      · cases h3 : categoryResolve (rowCategory r) (rowCropName r) with
        | none =>
            have hn : normalize r = none := by
              simp only [normalize]
              rw [if_neg h1, if_neg h2, h3]
            rw [hn]
            simp only [true_iff]
            tauto
        | some v =>
            have hn : normalize r = some ⟨rowState r, v, rowDistrict r, rowCropName r,
                rowScientificName r, rowSuitability r, rowQty r⟩ := by
              simp only [normalize, h3]
              rw [if_neg h1, if_neg h2, if_pos (categoryResolve_mem h3)]
            rw [hn]
            constructor
            · intro hc
              exact Option.noConfusion hc
            · intro hc
              exfalso
              rcases hc with hc | hc | hc | hc | hc
              · exact h1 (Or.inl hc)
              · exact h1 (Or.inr (Or.inl hc))
              · exact h1 (Or.inr (Or.inr hc))
              · exact h2 hc
              · exact Option.noConfusion hc
  refine ⟨hiff, ?_, ?_⟩
  · intro hn agg
    simp [step, hn]
  · intro hq agg
    have hn : normalize r = none := hiff.mpr (Or.inr (Or.inr (Or.inr (Or.inl (le_of_eq hq)))))
    simp [step, hn]

theorem C6_silent_rejection_witness :
    rowQty wRowZero = 0 ∧ step emptyAgg wRowZero = emptyAgg :=
  ⟨by decide, (C6_silent_rejection wRowZero).2.2 (by decide) emptyAgg⟩

/-- C7 counterexample: two valid rows that differ only in the casing of the
crop name share the dedup key "tomato", so the two processing orders are
permutations of each other, yet the stored crop names of the resulting
snapshots (and hence the snapshots themselves, beyond insertion order) are
different: first-seen casing wins. -/
theorem C7_counterexample :
    [wRow1, wRowUp].Perm [wRowUp, wRow1] ∧
    snapshotCropNames (buildSnapshot [wRow1, wRowUp] "t") = ["Tomato"] ∧
    snapshotCropNames (buildSnapshot [wRowUp, wRow1] "t") = ["TOMATO"] ∧
    ¬ ∃ n, n ∈ snapshotCropNames (buildSnapshot [wRow1, wRowUp] "t") ∧
           n ∈ snapshotCropNames (buildSnapshot [wRowUp, wRow1] "t") := by
  refine ⟨List.Perm.swap wRowUp wRow1 [], ?_, ?_, ?_⟩ <;> decide

/-- C7 (amended): aggregation is order-independent in everything except the
first-seen string fields: for every permutation of the input rows and every
(state, category, crop-key) triple, the crop's presence, its demandQuantity
and its set of region facts are unchanged; the stored crop-name and
scientific-name strings are first-seen and may differ with order. -/
theorem C7_order_independence (rows rows' : List Row) (hperm : rows.Perm rows')
    (s c k : String) :
    ((lookup3 (aggregate rows).states s c k).isSome = true ↔
      (lookup3 (aggregate rows').states s c k).isSome = true) ∧
    demandOpt (lookup3 (aggregate rows).states s c k) =
      demandOpt (lookup3 (aggregate rows').states s c k) ∧
    ∀ f : RegionFact,
      (f ∈ regionsOpt (lookup3 (aggregate rows).states s c k) ↔
        f ∈ regionsOpt (lookup3 (aggregate rows').states s c k)) := by
  have hrecs : (acceptedRecs rows).Perm (acceptedRecs rows') := hperm.filterMap normalize
  refine ⟨?_, ?_, ?_⟩
  · rw [isSome_lookup3_aggregate, isSome_lookup3_aggregate]
    constructor
    · rintro ⟨r, hr, hp⟩
      exact ⟨r, hrecs.mem_iff.mp hr, hp⟩
    · rintro ⟨r, hr, hp⟩
      exact ⟨r, hrecs.mem_iff.mpr hr, hp⟩
  · rw [demandOpt_aggregate, demandOpt_aggregate]
    exact ((hrecs.filter _).map Rec.qty).sum_eq
  · intro f
    rw [mem_regions_aggregate, mem_regions_aggregate]
    constructor
    · rintro ⟨r, hr, hp⟩
      exact ⟨r, hrecs.mem_iff.mp hr, hp⟩
    · rintro ⟨r, hr, hp⟩
      exact ⟨r, hrecs.mem_iff.mpr hr, hp⟩

theorem C7_order_independence_witness :
    demandOpt (lookup3 (aggregate [wRow1, wRowUp]).states "Karnataka" "Vegetables" "tomato") =
      demandOpt (lookup3 (aggregate [wRowUp, wRow1]).states "Karnataka" "Vegetables" "tomato") :=
  (C7_order_independence [wRow1, wRowUp] [wRowUp, wRow1]
    (List.Perm.swap wRowUp wRow1 []) "Karnataka" "Vegetables" "tomato").2.1

/-- C8 counterexample: a row whose first state alias is the whitespace-only
string " " while the second alias holds "Karnataka".  JS `||` treats " " as
truthy, so the normalizer selects it and trims it to the empty string instead
of falling through to the second alias. -/
theorem C8_counterexample :
    rowCX.state = some " " ∧ rowCX.stateName = some "Karnataka" ∧
    rowState rowCX = "" ∧ rowState rowCX ≠ "Karnataka" := by
  refine ⟨rfl, rfl, ?_, ?_⟩ <;> decide

/-- C8 (amended): for each aliased field the normalizer selects the first
JS-truthy alias (present with a non-empty string) and then trims it; an
absent or empty-string first alias falls through to the second alias, but a
whitespace-only first alias is selected and yields the empty value. -/
theorem C8_alias_selection (r : Row) :
    ((r.state = none ∨ r.state = some "") → rowState r = trimStr (jsOr r.stateName "")) ∧
    (∀ s, r.state = some s → s ≠ "" → rowState r = trimStr s) ∧
    ((r.category = none ∨ r.category = some "") → rowCategory r = trimStr (jsOr r.group "")) ∧
    (∀ s, r.category = some s → s ≠ "" → rowCategory r = trimStr s) ∧
    ((r.district = none ∨ r.district = some "") →
      rowDistrict r = trimStr (jsOr r.districtName "")) ∧
    (∀ s, r.district = some s → s ≠ "" → rowDistrict r = trimStr s) ∧
    ((r.scientific_name = none ∨ r.scientific_name = some "") →
      rowScientificName r = trimStr (jsOr r.scientificNameCap "")) ∧
    (∀ s, r.scientific_name = some s → s ≠ "" → rowScientificName r = trimStr s) ∧
    ((r.suitability = none ∨ r.suitability = some "") →
      rowSuitability r = trimStr (jsOr r.suitabilityCap "Medium")) ∧
    (∀ s, r.suitability = some s → s ≠ "" → rowSuitability r = trimStr s) ∧
    (r.demand_quantity = none →
      rowQty r = ((r.arrivalsTonnes.orElse fun _ => r.arrivals).getD 0)) ∧
    (∀ q, r.demand_quantity = some q → rowQty r = q) := by
  refine ⟨?_, ?_, ?_, ?_, ?_, ?_, ?_, ?_, ?_, ?_, ?_, ?_⟩
  · rintro (h | h) <;> simp [rowState, jsOr, h]
  · intro s hs hne
    simp [rowState, jsOr, hs, hne]
  · rintro (h | h) <;> simp [rowCategory, jsOr, h]
  · intro s hs hne
    simp [rowCategory, jsOr, hs, hne]
  · rintro (h | h) <;> simp [rowDistrict, jsOr, h]
  · intro s hs hne
    simp [rowDistrict, jsOr, hs, hne]
  · rintro (h | h) <;> simp [rowScientificName, jsOr, h]
  · intro s hs hne
    simp [rowScientificName, jsOr, hs, hne]
  · rintro (h | h) <;> simp [rowSuitability, jsOr, h]
  · intro s hs hne
    simp [rowSuitability, jsOr, hs, hne]
  · intro h
    simp [rowQty, h]
  · intro q hq
    simp [rowQty, hq]

theorem C8_alias_selection_witness :
    rowState rowCX = trimStr " " ∧ trimStr " " = "" :=
  ⟨(C8_alias_selection rowCX).2.1 " " rfl (by decide), by decide⟩

theorem projCat_eq_none_iff (city stName : String) (cat : CatOut) :
    projCat city stName cat = none ↔ ∀ c ∈ cat.crops, ¬ hasMatch city stName c = true := by
  unfold projCat
  by_cases h : (cat.crops.filter (hasMatch city stName)).length > 0
  · rw [if_pos h]
    constructor
    · intro habs
      exact Option.noConfusion habs
    · intro hall
      exfalso
      rw [List.filter_eq_nil_iff.mpr hall] at h
      simp at h
  · rw [if_neg h]
    constructor
    · intro _
      exact List.filter_eq_nil_iff.mp
        (List.length_eq_zero.mp (Nat.eq_zero_of_not_pos h))
    · intro _
      rfl

theorem projState_eq_none_iff (city : String) (cf : Option String) (sd : StateOut) :
    projState city cf sd = none ↔
      ∀ cat ∈ sd.categories, filterOk cf cat.name = true →
        projCat city sd.state cat = none := by
  unfold projState
  by_cases h : (sd.categories.filterMap (fun cat =>
      if filterOk cf cat.name then projCat city sd.state cat else none)).length > 0
  · rw [if_pos h]
    constructor
    · intro habs
      exact Option.noConfusion habs
    · intro hall
      exfalso
      have hnil : sd.categories.filterMap (fun cat =>
          if filterOk cf cat.name then projCat city sd.state cat else none) = [] := by
        rw [List.filterMap_eq_nil_iff]
        intro cat hcat
        by_cases hf : filterOk cf cat.name = true
        · rw [if_pos hf]
          exact hall cat hcat hf
        · rw [if_neg hf]
      rw [hnil] at h
      simp at h
  · rw [if_neg h]
    constructor
    · intro _ cat hcat hf
      have hnil := List.length_eq_zero.mp (Nat.eq_zero_of_not_pos h)
      have := List.filterMap_eq_nil_iff.mp hnil cat hcat
      rwa [if_pos hf] at this
    · intro _
      rfl

theorem projData_eq_nil_iff (snap : List StateOut) (city : String) (sf cf : Option String) :
    projData snap city sf cf = [] ↔
      ∀ sd ∈ snap, filterOk sf sd.state = true → ∀ cat ∈ sd.categories,
        filterOk cf cat.name = true → ∀ c ∈ cat.crops, ¬ hasMatch city sd.state c = true := by
  unfold projData
  rw [List.filterMap_eq_nil_iff]
  constructor
  · intro h sd hsd hsf cat hcat hcf c hc hm
    have hnone := h sd hsd
    rw [if_pos hsf] at hnone
    exact (projCat_eq_none_iff city sd.state cat).mp
      ((projState_eq_none_iff city cf sd).mp hnone cat hcat hcf) c hc hm
  · intro h sd hsd
    by_cases hsf : filterOk sf sd.state = true
    · rw [if_pos hsf]
      exact (projState_eq_none_iff city cf sd).mpr (fun cat hcat hcf =>
        (projCat_eq_none_iff city sd.state cat).mpr (h sd hsd hsf cat hcat hcf))
    · rw [if_neg hsf]

/-- C5: The district projection returns NotFound if and only if zero states
retain any crop after the district match and the optional state/category
filters; a successful response never carries an empty data payload, so the
empty case is a distinguishable error, not an empty success. -/
theorem C5_projection_notfound (snap : List StateOut) (city : String) (sf cf : Option String)
    (hsnap : snap ≠ []) (hcity : trimStr city ≠ "") :
    (cityEndpoint (some snap) city sf cf = Resp.notFound ↔
      ¬ ∃ sd ∈ snap, filterOk (normFilter sf) sd.state = true ∧
        ∃ cat ∈ sd.categories, filterOk (normFilter cf) cat.name = true ∧
          ∃ c ∈ cat.crops, hasMatch (trimStr city) sd.state c = true) ∧
    (∀ r, cityEndpoint (some snap) city sf cf = Resp.ok r → r.data ≠ []) := by
  have hiff : projData snap (trimStr city) (normFilter sf) (normFilter cf) = [] ↔
      ¬ ∃ sd ∈ snap, filterOk (normFilter sf) sd.state = true ∧
        ∃ cat ∈ sd.categories, filterOk (normFilter cf) cat.name = true ∧
          ∃ c ∈ cat.crops, hasMatch (trimStr city) sd.state c = true := by
    rw [projData_eq_nil_iff]
    constructor
    · rintro h ⟨sd, hsd, hsf, cat, hcat, hcf, c, hc, hm⟩
      exact h sd hsd hsf cat hcat hcf c hc hm
    · intro h sd hsd hsf cat hcat hcf c hc hm
      exact h ⟨sd, hsd, hsf, cat, hcat, hcf, c, hc, hm⟩
  have hgd : ¬ ((some snap).getD [] = []) := hsnap
  constructor
  · simp only [cityEndpoint]
    rw [if_neg hcity, if_neg hgd, Option.getD_some]
    by_cases hdata : projData snap (trimStr city) (normFilter sf) (normFilter cf) = []
    · rw [if_pos hdata]
      exact ⟨fun _ => hiff.mp hdata, fun _ => rfl⟩
    · rw [if_neg hdata]
      constructor
      · intro habs
        exact Resp.noConfusion habs
      · intro hno
        exact absurd (hiff.mpr hno) hdata
  · intro r hr
    simp only [cityEndpoint] at hr
    rw [if_neg hcity, if_neg hgd, Option.getD_some] at hr
    by_cases hdata : projData snap (trimStr city) (normFilter sf) (normFilter cf) = []
    · rw [if_pos hdata] at hr
      exact Resp.noConfusion hr
    · rw [if_neg hdata] at hr
      obtain rfl := (Resp.ok.inj hr).symm
      exact hdata

theorem C5_projection_notfound_witness :
    cityEndpoint (some wSnapLit) "Atlantis" none none = Resp.notFound :=
  (C5_projection_notfound wSnapLit "Atlantis" none none (by decide) (by decide)).1.mpr
    (by decide)

/-- C10: Every query route fails fast with the 503 SnapshotUnavailable
condition both when no snapshot was loaded (`demandData` empty after a failed
load, modelled as `some []`, or never assigned, modelled as `none`) and when
a loaded snapshot has zero states; the two situations are indistinguishable
at the query interface. -/
theorem C10_snapshot_unavailable (d : Option (List StateOut)) (city : String)
    (sf cf : Option String) (hd : d = none ∨ d = some []) :
    (trimStr city ≠ "" → cityEndpoint d city sf cf = Resp.unavailable) ∧
    citiesEndpoint d = Resp.unavailable ∧
    allCitiesEndpoint d = Resp.unavailable ∧
    cityEndpoint none city sf cf = cityEndpoint (some []) city sf cf ∧
    citiesEndpoint (none : Option (List StateOut)) = citiesEndpoint (some []) ∧
    allCitiesEndpoint (none : Option (List StateOut)) = allCitiesEndpoint (some []) := by
  have hgd : d.getD [] = [] := by
    rcases hd with rfl | rfl <;> rfl
  refine ⟨?_, ?_, ?_, ?_, rfl, rfl⟩
  · intro hc
    simp only [cityEndpoint]
    rw [if_neg hc, if_pos hgd]
  · simp only [citiesEndpoint]
    rw [if_pos hgd]
  · simp only [allCitiesEndpoint]
    rw [if_pos hgd]
  · by_cases hc : trimStr city = ""
    · simp only [cityEndpoint]
      rw [if_pos hc, if_pos hc]
    · simp only [cityEndpoint]
      rw [if_neg hc, if_neg hc,
        if_pos (show (none : Option (List StateOut)).getD [] = [] from rfl),
        if_pos (show ((some []) : Option (List StateOut)).getD [] = [] from rfl)]

theorem C10_snapshot_unavailable_witness :
    cityEndpoint (none : Option (List StateOut)) "Bangalore" none none = Resp.unavailable ∧
    citiesEndpoint (some ([] : List StateOut)) = Resp.unavailable :=
  ⟨(C10_snapshot_unavailable none "Bangalore" none none (Or.inl rfl)).1 (by decide),
   (C10_snapshot_unavailable (some []) "Bangalore" none none (Or.inr rfl)).2.1⟩

/-- C2: Within a retained state and category, the projection emits exactly
the crops having a region fact whose district matches the queried district
case-insensitively and whose recorded state equals the containing state's
name; each emitted record keeps the crop's identity and its state-wide
demandQuantity unchanged, with the region list replaced by the singleton of
the (first) matching fact; crops with no such fact are not emitted.  The
hypothesis states the pipeline invariant that a crop's facts carry its
state's name. -/
theorem C2_district_projection (snap : List StateOut) (city : String) (sf cf : Option String)
    (hfacts : ∀ sd ∈ snap, ∀ cat ∈ sd.categories, ∀ c ∈ cat.crops,
      ∀ f ∈ c.regionalSuitability, f.state = sd.state) :
    ∀ sres ∈ projData snap city sf cf, ∀ cres ∈ sres.categories,
      ∃ sd ∈ snap, sd.state = sres.state ∧ ∃ cat ∈ sd.categories, cat.name = cres.name ∧
        cres.crops = (cat.crops.filter (fun c => c.regionalSuitability.any (fun f =>
            decide (toLowerStr f.district = toLowerStr city ∧ f.state = sd.state)))).map
          (reduceCrop city sd.state) ∧
        ∀ e ∈ cres.crops, ∃ c ∈ cat.crops,
          e.cropId = c.cropId ∧ e.cropName = c.cropName ∧
          e.scientificName = c.scientificName ∧ e.categoryId = c.categoryId ∧
          e.demandQuantity = c.demandQuantity ∧
          ∃ f ∈ c.regionalSuitability,
            toLowerStr f.district = toLowerStr city ∧ f.state = sd.state ∧
            e.regionalSuitability = [f] := by
  intro sres hsres cres hcres
  obtain ⟨sd, hsd, hif⟩ := List.mem_filterMap.mp hsres
  by_cases hsf : filterOk sf sd.state = true
  · rw [if_pos hsf] at hif
    unfold projState at hif
    by_cases hlen : (sd.categories.filterMap (fun cat =>
        if filterOk cf cat.name then projCat city sd.state cat else none)).length > 0
    · rw [if_pos hlen] at hif
      obtain rfl := Option.some.inj hif
      replace hcres : cres ∈ sd.categories.filterMap (fun cat =>
          if filterOk cf cat.name then projCat city sd.state cat else none) := hcres
      obtain ⟨cat, hcat, hif2⟩ := List.mem_filterMap.mp hcres
      by_cases hcf : filterOk cf cat.name = true
      · rw [if_pos hcf] at hif2
        unfold projCat at hif2
        by_cases hlen2 : (cat.crops.filter (hasMatch city sd.state)).length > 0
        · rw [if_pos hlen2] at hif2
          obtain rfl := Option.some.inj hif2
          have hpred : ∀ c ∈ cat.crops, hasMatch city sd.state c =
              c.regionalSuitability.any (fun f =>
                decide (toLowerStr f.district = toLowerStr city ∧ f.state = sd.state)) := by
            intro c hc
            rw [Bool.eq_iff_iff]
            simp only [hasMatch, districtMatch, List.any_eq_true]
            constructor
            · rintro ⟨f, hf, hfp⟩
              obtain ⟨hd, _⟩ := of_decide_eq_true hfp
              exact ⟨f, hf, decide_eq_true ⟨hd, hfacts sd hsd cat hcat c hc f hf⟩⟩
            · rintro ⟨f, hf, hfp⟩
              obtain ⟨hd, hs⟩ := of_decide_eq_true hfp
              exact ⟨f, hf, decide_eq_true ⟨hd, by rw [hs]⟩⟩
          refine ⟨sd, hsd, rfl, cat, hcat, rfl, ?_, ?_⟩
          · show (cat.crops.filter (hasMatch city sd.state)).map (reduceCrop city sd.state) = _
            rw [List.filter_congr hpred]
          · intro e he
            replace he : e ∈ (cat.crops.filter (hasMatch city sd.state)).map
                (reduceCrop city sd.state) := he
            obtain ⟨c, hcmem, rfl⟩ := List.mem_map.mp he
            obtain ⟨hccrops, hcmatch⟩ := List.mem_filter.mp hcmem
            have hfound : ∃ f₀, c.regionalSuitability.find? (districtMatch city sd.state)
                = some f₀ := by
              cases hfd : c.regionalSuitability.find? (districtMatch city sd.state) with
              | some f₀ => exact ⟨f₀, rfl⟩
              | none =>
                  exfalso
                  simp only [hasMatch, List.any_eq_true] at hcmatch
                  obtain ⟨f, hf, hfp⟩ := hcmatch
                  exact absurd hfp (by simpa using List.find?_eq_none.mp hfd f hf)
            obtain ⟨f₀, hf₀⟩ := hfound
            have hf₀p := List.find?_some hf₀
            have hf₀mem := List.mem_of_find?_eq_some hf₀
            obtain ⟨hd0, _⟩ := of_decide_eq_true (by simpa [districtMatch] using hf₀p)
            refine ⟨c, hccrops, rfl, rfl, rfl, rfl, rfl, f₀, hf₀mem, hd0,
              hfacts sd hsd cat hcat c hccrops f₀ hf₀mem, ?_⟩
            show (reduceCrop city sd.state c).regionalSuitability = [f₀]
            simp [reduceCrop, hf₀]
        · rw [if_neg hlen2] at hif2
          exact Option.noConfusion hif2
      · rw [if_neg hcf] at hif2
        exact Option.noConfusion hif2
    · rw [if_neg hlen] at hif
      exact Option.noConfusion hif
  · rw [if_neg hsf] at hif
    exact Option.noConfusion hif

theorem C2_district_projection_witness :
    ∃ sd ∈ wSnapLit, sd.state = wSres.state ∧
      ∃ cat ∈ sd.categories, cat.name = wCres.name ∧
        wCres.crops = (cat.crops.filter (fun c => c.regionalSuitability.any (fun f =>
            decide (toLowerStr f.district = toLowerStr "Bangalore" ∧ f.state = sd.state)))).map
          (reduceCrop "Bangalore" sd.state) ∧
        ∀ e ∈ wCres.crops, ∃ c ∈ cat.crops,
          e.cropId = c.cropId ∧ e.cropName = c.cropName ∧
          e.scientificName = c.scientificName ∧ e.categoryId = c.categoryId ∧
          e.demandQuantity = c.demandQuantity ∧
          ∃ f ∈ c.regionalSuitability,
            toLowerStr f.district = toLowerStr "Bangalore" ∧ f.state = sd.state ∧
            e.regionalSuitability = [f] :=
  C2_district_projection wSnapLit "Bangalore" none none (by decide)
    wSres (getD_zero_mem _ _ (by decide)) wCres (getD_zero_mem _ _ (by decide))

theorem distinctList_aux (l : List String) (acc : List String) (hacc : acc.Nodup) :
    (l.foldl insertIfAbsent acc).Nodup ∧
      (l.foldl insertIfAbsent acc).toFinset = acc.toFinset ∪ l.toFinset := by
  induction l generalizing acc with
  | nil => simp [hacc]
  | cons x t ih =>
      rw [List.foldl_cons]
      by_cases hx : x ∈ acc
      · rw [show insertIfAbsent acc x = acc from by simp [insertIfAbsent, hx]]
        obtain ⟨h1, h2⟩ := ih acc hacc
        refine ⟨h1, ?_⟩
        rw [h2, List.toFinset_cons, Finset.union_insert]
        exact (Finset.insert_eq_self.mpr
          (Finset.mem_union_left _ (List.mem_toFinset.mpr hx))).symm
      · rw [show insertIfAbsent acc x = acc ++ [x] from by simp [insertIfAbsent, hx]]
        have hacc' : (acc ++ [x]).Nodup := by
          simp [List.nodup_append, hacc, hx]
        obtain ⟨h1, h2⟩ := ih (acc ++ [x]) hacc'
        refine ⟨h1, ?_⟩
        rw [h2, List.toFinset_append, List.toFinset_cons]
        ext a
        simp
        tauto

theorem distinctCount_eq_card (l : List String) : distinctCount l = l.toFinset.card := by
  obtain ⟨h1, h2⟩ := distinctList_aux l [] List.nodup_nil
  rw [distinctCount, distinctList, ← List.toFinset_card_of_nodup h1, h2]
  simp

/-- C9: In the full city index, every emitted city's summary field
totalCategories equals the number of distinct category names appearing
anywhere under that city across all of its states — a set cardinality, so a
category present under two states of the same city counts once. -/
theorem C9_city_total_categories (snap : List StateOut) :
    ∀ ce ∈ (allCitiesIndex snap).cities,
      ce.summary.totalCategories =
        (ce.states.flatMap (fun st => st.categories.map CityCatEntry.name)).toFinset.card := by
  intro ce hce
  replace hce : ce ∈ ((buildCityBuckets snap).filterMap convertCity).insertionSort
      (fun a b => strLe a.city b.city = true) := hce
  rw [List.mem_insertionSort] at hce
  obtain ⟨p, _, hcv⟩ := List.mem_filterMap.mp hce
  unfold convertCity at hcv
  by_cases h : (convertStates p.2).length > 0
  · rw [if_pos h] at hcv
    obtain rfl := Option.some.inj hcv
    show distinctCount ((convertStates p.2).flatMap fun st =>
      st.categories.map CityCatEntry.name) = _
    rw [distinctCount_eq_card]
  · rw [if_neg h] at hcv
    exact Option.noConfusion hcv

theorem C9_city_total_categories_witness :
    wCityEntry.summary.totalCategories =
      (wCityEntry.states.flatMap (fun st =>
        st.categories.map CityCatEntry.name)).toFinset.card :=
  C9_city_total_categories wSnapLit wCityEntry (getD_zero_mem _ _ (by decide))

end MarketDemand
